import Mathlib

/-!
Verification of the Chi design-system toolchain (`scripts/generate-css-custom-properties.ts`
and `scripts/build/css/build.js`) against its natural-language specification.

The TypeScript/JavaScript sources are shallowly embedded below: pure functions become Lean
functions on `String` / `List Char`; file-system and process effects are passed in explicitly
as oracle parameters; JavaScript regular expressions are translated to executable character
scans (with `\s` and `.` restricted to their ASCII behaviour, which covers every input the
theorems quantify over).
-/

-- =============================================================================
-- Character classes and list utilities
-- =============================================================================

/-- ASCII fragment of the JavaScript `\s` character class. -/
def wsChar (c : Char) : Bool :=
  (c == ' ') || (c == '\t') || (c == '\n') || (c == '\r') || (c == '\x0b') || (c == '\x0c')

/-- JavaScript `.` (without the `s` flag): any character except line terminators. -/
def dotChar (c : Char) : Bool :=
  !(c == '\n' || c == '\r')

/-- Character class `[a-zA-Z0-9_-]` used for SCSS variable names. -/
def nameChar (c : Char) : Bool :=
  c.isAlpha || c.isDigit || c == '_' || c == '-'

/-- `hasPre p l` holds when the list `p` is an initial segment of `l`. -/
def hasPre : List Char → List Char → Bool
  | [], _ => true
  | _ :: _, [] => false
  | p :: ps, c :: cs => p == c && hasPre ps cs

/-- Left trim with respect to `wsChar` (JavaScript `trimStart`). -/
def trimL (l : List Char) : List Char := l.dropWhile wsChar

/-- Right trim with respect to `wsChar` (JavaScript `trimEnd`). -/
def trimR (l : List Char) : List Char := (l.reverse.dropWhile wsChar).reverse

/-- Full trim (JavaScript `String.prototype.trim`, ASCII fragment). -/
def trimC (l : List Char) : List Char := trimR (trimL l)

/-- String-level trim. -/
def strTrim (s : String) : String := ⟨trimC s.data⟩

/-- `String.prototype.startsWith`. -/
def strStartsWith (s pre : String) : Bool := hasPre pre.data s.data

/-- Suffix test, used for the JavaScript regex `-breakpoint$` and friends. -/
def strEndsWith (s suf : String) : Bool := hasPre suf.data.reverse s.data.reverse

/-- Occurrence of `pat` as a contiguous substring of `l` (JavaScript `String.prototype.includes`). -/
def hasSubstr (pat : List Char) : List Char → Bool
  | [] => hasPre pat []
  | c :: cs => hasPre pat (c :: cs) || hasSubstr pat cs

/-- String-level `includes`. -/
def strIncludes (s pat : String) : Bool := hasSubstr pat.data s.data

/-- Membership of a single character (JavaScript `includes` with one-character argument). -/
def hasChar (c : Char) (l : List Char) : Bool := l.contains c

/-- JavaScript `String.prototype.split('\n')`: always returns at least one (possibly empty) piece. -/
def splitLines : List Char → List (List Char)
  | [] => [[]]
  | c :: cs =>
    if c == '\n' then [] :: splitLines cs
    else
      match splitLines cs with
      | l :: ls => (c :: l) :: ls
      | [] => [[c]]

/-- JavaScript `Array.prototype.join('\n')` on the character level. -/
def joinNL : List (List Char) → List Char
  | [] => []
  | [l] => l
  | l :: ls => l ++ '\n' :: joinNL ls

/-- `Array.prototype.join('\n')` for a list of strings. -/
def joinLinesStr (ls : List String) : String := ⟨joinNL (ls.map String.data)⟩

/-- The segment of `l` strictly before the last occurrence of `c`
(`String.prototype.lastIndexOf` followed by `slice(0, idx)`); `none` when `c` does not occur. -/
def beforeLast (c : Char) : List Char → Option (List Char)
  | [] => none
  | x :: xs =>
    match beforeLast c xs with
    | some r => some (x :: r)
    | none => if x == c then some [] else none

/-- The segment of `l` strictly before the first occurrence of the substring `//`
(JavaScript `value.split('//')[0]`). -/
def beforeSS : List Char → List Char
  | [] => []
  | c :: cs => if c == '/' && cs.head? == some '/' then [] else c :: beforeSS cs

/-- Whether `//` occurs in `l` (JavaScript `value.includes('//')`). -/
def hasSS : List Char → Bool
  | [] => false
  | c :: cs => (c == '/' && cs.head? == some '/') || hasSS cs

/-- Faithful model of the JavaScript search `rawValuePart.match of the pattern SLASH SLASH \s*(.+?)$`:
scan left to right for `//`; at each occurrence the capture is the rest of the line with
leading whitespace removed (when the rest is whitespace-only and non-empty, backtracking of
the greedy `\s*` makes the capture the final character); a position where the capture cannot
reach the end of the line through `.`-matchable characters is skipped. -/
def findComment : List Char → Option (List Char)
  | [] => none
  | c :: cs =>
    if c == '/' && cs.head? == some '/' then
      let rest := cs.tail
      let cap := rest.dropWhile wsChar
      if !cap.isEmpty && cap.all dotChar then some cap
      else if cap.isEmpty && !rest.isEmpty && dotChar (rest.getLastD ' ') then
        some [rest.getLastD ' ']
      else findComment cs
    else findComment cs

/-- First-occurrence deduplication (the key order of a JavaScript `Map` / plain object). -/
def dedupFirstAux (seen : List String) : List String → List String
  | [] => []
  | x :: xs => if x ∈ seen then dedupFirstAux seen xs else x :: dedupFirstAux (x :: seen) xs

/-- First-occurrence deduplication starting from no seen keys. -/
def dedupFirst (l : List String) : List String := dedupFirstAux [] l

/-- JavaScript `String.prototype.repeat` for a single character. -/
def repChar (c : Char) : Nat → List Char
  | 0 => []
  | n + 1 => c :: repChar c n

/-- JavaScript `String.prototype.replace` with a plain-string pattern: replaces the first
occurrence only. -/
def replaceFirst (pat repl : List Char) : List Char → List Char
  | [] => []
  | c :: cs =>
    if hasPre pat (c :: cs) then repl ++ (c :: cs).drop pat.length
    else c :: replaceFirst pat repl cs

-- =============================================================================
-- Token classification (generate-css-custom-properties.ts, lines 44-98, 291-314)
-- =============================================================================

/-- The four classification results for a parsed SCSS variable
(TS type `Layer | 'component' | 'excluded'`). -/
inductive Layer where
  | foundation
  | semantic
  | component
  | excluded
deriving DecidableEq, Repr

/-- Exact-match regex `^\$x$` for each `x` drawn from a list of alternatives. -/
def matchExactAny (alts : List String) (s : String) : Bool :=
  alts.any (fun a => s == a)

/-- Digit-suffix regex of shape `^\$pre\d+$`. -/
def matchDigitSuffix (pre : String) (s : String) : Bool :=
  match s.data.dropPrefix? pre.data with
  | some rest => !rest.isEmpty && rest.all Char.isDigit
  | none => false

/-- `^\$font-family-(base|mono)$` -/
def patFontFamily (s : String) : Bool :=
  matchExactAny ["$font-family-base", "$font-family-mono"] s

/-- `^\$font-size-(3xl|2xl|xl|lg|md|sm|xs|2xs|base|h[1-6])$` -/
def patFontSize (s : String) : Bool :=
  matchExactAny (["3xl", "2xl", "xl", "lg", "md", "sm", "xs", "2xs", "base",
    "h1", "h2", "h3", "h4", "h5", "h6"].map (fun a => "$font-size-" ++ a)) s

/-- `^\$font-weight-(light|normal|medium|semi-bold|bold|extra-bold|black|base|h[1-6])$` -/
def patFontWeight (s : String) : Bool :=
  matchExactAny (["light", "normal", "medium", "semi-bold", "bold", "extra-bold", "black",
    "base", "h1", "h2", "h3", "h4", "h5", "h6"].map (fun a => "$font-weight-" ++ a)) s

/-- `^\$line-height-(base|xl|lg|md|sm|h[1-6])$` -/
def patLineHeight (s : String) : Bool :=
  matchExactAny (["base", "xl", "lg", "md", "sm",
    "h1", "h2", "h3", "h4", "h5", "h6"].map (fun a => "$line-height-" ++ a)) s

/-- The hue alternatives of the colour-ramp regex. -/
def colorHues : List String :=
  ["grey", "red", "pink", "purple", "indigo", "violet", "navy", "blue", "bright-blue",
   "cyan", "teal", "teal-blue", "mint", "green", "yellow", "orange"]

/-- `^\$color-(grey|red|...|orange)-\d+$` — regex alternation with backtracking is
existential choice over the alternatives. -/
def patColorRamp (s : String) : Bool :=
  colorHues.any (fun h => matchDigitSuffix ("$color-" ++ h ++ "-") s)

/-- `^\$color-(black|white)$` -/
def patColorBW (s : String) : Bool :=
  matchExactAny ["$color-black", "$color-white"] s

/-- `^\$base-unit$` -/
def patBaseUnit (s : String) : Bool := s == "$base-unit"

/-- `^\$opacity-\d+$` -/
def patOpacity (s : String) : Bool := matchDigitSuffix "$opacity-" s

/-- `^\$border-radius-(base|sharp|circle|medium|rounded-pill)$` -/
def patBorderRadius (s : String) : Bool :=
  matchExactAny (["base", "sharp", "circle", "medium", "rounded-pill"].map
    (fun a => "$border-radius-" ++ a)) s

/-- `^\$focus-color$` -/
def patFocusColor (s : String) : Bool := s == "$focus-color"

/-- `^\$link-color$` -/
def patLinkColor (s : String) : Bool := s == "$link-color"

/-- `^\$link-hover-color$` -/
def patLinkHoverColor (s : String) : Bool := s == "$link-hover-color"

/-- `^\$icon-size-(base|xs|sm|sm2|sm3|md|lg|xl|xxl)$` -/
def patIconSize (s : String) : Bool :=
  matchExactAny (["base", "xs", "sm", "sm2", "sm3", "md", "lg", "xl", "xxl"].map
    (fun a => "$icon-size-" ++ a)) s

/-- `^\$(sm|md|lg|xl|xxl)-breakpoint$` -/
def patBreakpoint (s : String) : Bool :=
  matchExactAny (["sm", "md", "lg", "xl", "xxl"].map
    (fun a => "$" ++ a ++ "-breakpoint")) s

/-- `^\$zindex-` -/
def patZindex (s : String) : Bool := strStartsWith s "$zindex-"

/-- `FOUNDATION_PATTERNS` (source lines 44-75). -/
def FOUNDATION_PATTERNS : List (String → Bool) :=
  [patFontFamily, patFontSize, patFontWeight, patLineHeight, patColorRamp, patColorBW,
   patBaseUnit, patOpacity, patBorderRadius, patFocusColor, patLinkColor, patLinkHoverColor,
   patIconSize, patBreakpoint, patZindex]

/-- `^\$color-text-` -/
def patColorText (s : String) : Bool := strStartsWith s "$color-text-"

/-- `^\$color-icon-` -/
def patColorIcon (s : String) : Bool := strStartsWith s "$color-icon-"

/-- `^\$color-border-` -/
def patColorBorder (s : String) : Bool := strStartsWith s "$color-border-"

/-- `^\$color-background-(?!gradient)` — prefix match with a negative lookahead. -/
def patColorBackground (s : String) : Bool :=
  match s.data.dropPrefix? "$color-background-".data with
  | some rest => !hasPre "gradient".data rest
  | none => false

/-- `SEMANTIC_PATTERNS` (source lines 78-87). -/
def SEMANTIC_PATTERNS : List (String → Bool) :=
  [patColorText, patColorIcon, patColorBorder, patColorBackground]

/-- `EXCLUDE_PATTERNS` (source lines 90-98): all entries are exact-name matches. -/
def EXCLUDE_PATTERNS : List (String → Bool) :=
  ["$state-colors", "$color-semantic", "$screen-sizes", "$shadow", "$cap-height",
   "$font-family-icon", "$icon-color"].map (fun a s => s == a)

/-- Whether any pattern in a table matches (the `for … if (pattern.test(fullName))` loops). -/
def matchesAnyPat (pats : List (String → Bool)) (s : String) : Bool :=
  pats.any (fun p => p s)

/-- `value.startsWith('(') || value.includes('linear-gradient')` (source line 298). -/
def valueExcluded (value : String) : Bool :=
  strStartsWith value "(" || strIncludes value "linear-gradient"

/-- `classifyToken` (source lines 291-314): exclusions first, then the map/gradient value
check, then foundation patterns, then semantic patterns, else component. -/
def classifyToken (fullName value : String) : Layer :=
  if matchesAnyPat EXCLUDE_PATTERNS fullName then .excluded
  else if valueExcluded value then .excluded
  else if matchesAnyPat FOUNDATION_PATTERNS fullName then .foundation
  else if matchesAnyPat SEMANTIC_PATTERNS fullName then .semantic
  else .component

-- =============================================================================
-- SCSS parser (generate-css-custom-properties.ts, lines 218-286)
-- =============================================================================

/-- A parsed SCSS variable record (TS interface `ScssVariable`). -/
structure ScssVariable where
  name : String
  rawValue : String
  comment : Option String
  line : Nat
  layer : Layer
deriving DecidableEq, Repr

instance : Inhabited ScssVariable := ⟨⟨"", "", none, 0, Layer.component⟩⟩

/-- Faithful model of `line.match` against `^\$([a-zA-Z0-9_-]+)\s*:\s*(.+)$`:
returns the two captures (name without the `$`, and the value part).  The greedy name
capture is the maximal run of name characters; `\s*` skips whitespace up to the `:`;
after the colon the greedy `\s*` plus the non-empty capture `(.+)$` yield the rest with
leading whitespace removed, or — by backtracking, when the rest is whitespace-only and
non-empty — the final character alone; `.` cannot match a line terminator. -/
def matchDecl (l : List Char) : Option (List Char × List Char) :=
  match l with
  | [] => none
  | c0 :: rest =>
    if c0 == '$' then
      let n := rest.takeWhile nameChar
      if n.isEmpty then none
      else
        match (rest.dropWhile nameChar).dropWhile wsChar with
        | [] => none
        | c1 :: r3 =>
          if c1 == ':' then
            let v := r3.dropWhile wsChar
            if !v.isEmpty then
              if v.all dotChar then some (n, v) else none
            else if !r3.isEmpty && dotChar (r3.getLastD ' ') then
              some (n, [r3.getLastD ' '])
            else none
          else none
    else none

/-- The multi-line accumulation loop of `parseScssVariables` (source lines 247-253):
`while (i + 1 < lines.length && !rawValuePart.includes(';')) rawValuePart += ' ' + lines[i].trim()`.
Returns the accumulated value part and the number of lines consumed. -/
def accumValue (acc : List Char) : List (List Char) → List Char × Nat
  | [] => (acc, 0)
  | l :: ls =>
    if hasChar ';' acc then (acc, 0)
    else
      let r := accumValue (acc ++ ' ' :: trimC l) ls
      (r.1, r.2 + 1)

/-- The accumulated value part and the number of lines consumed: the accumulation is
entered when the matched value part has no `;`, or has a `(` but no `)` (source line 247). -/
def rawAfterAccum (raw0 : List Char) (rest : List (List Char)) : List Char × Nat :=
  if !hasChar ';' raw0 || (hasChar '(' raw0 && !hasChar ')' raw0) then
    accumValue raw0 rest
  else (raw0, 0)

/-- Build one parsed record from the matched name and the (possibly accumulated) value
part (source lines 255-280): the value is the trimmed text before the last `;`; the
comment is the trimmed capture of the inline-comment regex; when a comment was captured
and the value still contains `//`, the value is cut at its first `//` and re-trimmed;
`i` is the 0-based index of the last consumed line, so the stored line number is
`i + 1`. -/
def buildRecord (i : Nat) (n rawValuePart : List Char) : ScssVariable :=
  let value0 :=
    match beforeLast ';' rawValuePart with
    | some pre => trimC pre
    | none => trimC rawValuePart
  let commentCap := findComment rawValuePart
  let comment : Option String :=
    match commentCap with
    | some cap => some ⟨trimC cap⟩
    | none => none
  let value : List Char :=
    match commentCap with
    | some _ => if hasSS value0 then trimC (beforeSS value0) else value0
    | none => value0
  { name := ⟨n⟩
    rawValue := ⟨value⟩
    comment := comment
    line := i + 1
    layer := classifyToken ("$" ++ (⟨n⟩ : String)) ⟨value⟩ }

/-- The body of the `while (i < lines.length)` loop of `parseScssVariables`
(source lines 237-283), with the mutable index `i` threaded explicitly (0-based index of
the current line) and one unit of fuel consumed per iteration. -/
def parseLoopF : Nat → Nat → List (List Char) → List ScssVariable
  | 0, _, _ => []
  | _, _, [] => []
  | fuel + 1, i, l :: rest =>
    match matchDecl l with
    | none => parseLoopF fuel (i + 1) rest
    | some (n, rawValuePart0) =>
      let acc := rawAfterAccum rawValuePart0 rest
      buildRecord (i + acc.2) n acc.1 ::
        parseLoopF fuel (i + acc.2 + 1) (rest.drop acc.2)

/-- The loop entry point: one unit of fuel per line suffices because every iteration
consumes at least one line. -/
def parseLoop (i : Nat) (lines : List (List Char)) : List ScssVariable :=
  parseLoopF lines.length i lines

/-- `parseScssVariables` (source lines 231-286), with the file contents passed in place of
the file read: split the contents on newlines and run the declaration-matching loop. -/
def parseScssVariables (content : String) : List ScssVariable :=
  parseLoop 0 (splitLines content.data)

-- =============================================================================
-- Synthetic tokens (generate-css-custom-properties.ts, lines 105-212)
-- =============================================================================

/-- TS interface `SyntheticToken`. -/
structure SyntheticToken where
  name : String
  scssExpression : String
  comment : Option String
  type : String
  category : String
deriving DecidableEq, Repr

/-- `SYNTHETIC_SHADOW_TOKENS` (source lines 114-121). -/
def SYNTHETIC_SHADOW_TOKENS : List SyntheticToken :=
  [⟨"shadow-0", "none", some "No shadow", "shadow", "elevation"⟩,
   ⟨"shadow-1", "map-get($shadow, 1)", some "Elevation 1 — subtle", "shadow", "elevation"⟩,
   ⟨"shadow-2", "map-get($shadow, 2)", some "Elevation 2 — card", "shadow", "elevation"⟩,
   ⟨"shadow-3", "map-get($shadow, 3)", some "Elevation 3 — dropdown", "shadow", "elevation"⟩,
   ⟨"shadow-4", "map-get($shadow, 4)", some "Elevation 4 — modal", "shadow", "elevation"⟩,
   ⟨"shadow-5", "map-get($shadow, 5)", some "Elevation 5 — max elevation", "shadow", "elevation"⟩]

/-- The stepped `for` loops of `buildSpacingScale`, in exact arithmetic on hundredths of a
rem (the JavaScript loops step in floating point but round every iterate back to two decimal
places with `Math.round((r + step) * 100) / 100`, and every value reached is an exact
multiple of 0.25, so the float loop computes exactly these values).  `stepPred` is the step
minus one (in hundredths), so the measure decreases without a positivity side condition. -/
def stepsByF (stepPred : Nat) : Nat → Nat → Nat → List Nat
  | 0, _, _ => []
  | fuel + 1, r, limit =>
    if r ≤ limit then r :: stepsByF stepPred fuel (r + stepPred + 1) limit else []

/-- The loop entry point: `limit + 1 - r` iterations suffice because `r` grows by at
least one per iteration. -/
def stepsBy (stepPred : Nat) (r limit : Nat) : List Nat :=
  stepsByF stepPred (limit + 1 - r) r limit

/-- Decimal rendering of a hundredths-of-a-rem value, matching JavaScript number-to-string
for the values produced by `buildSpacingScale` (integers print without a decimal point,
trailing zeros are dropped). -/
def centiToStr (c : Nat) : String :=
  if c % 100 == 0 then toString (c / 100)
  else if c % 10 == 0 then toString (c / 100) ++ "." ++ toString (c / 10 % 10)
  else toString (c / 100) ++ "." ++ toString (c / 10 % 10) ++ toString (c % 10)

/-- `buildSpacingScale` (source lines 128-163): 0, then 0.25-rem increments to 3, then
0.5-rem increments from 3.5 to 4, then 1-rem increments from 5 to 24; rem values are held
in hundredths. -/
def buildSpacingScale : List SyntheticToken :=
  let steps : List Nat :=
    0 :: (stepsBy 24 25 300 ++ stepsBy 49 350 400 ++ stepsBy 99 500 2400)
  steps.enum.map (fun p =>
    let i := p.1
    let c := p.2
    let value := if c == 0 then "0" else centiToStr c ++ "rem"
    let px := c * 16 / 100
    let spaceNote :=
      if c % 50 == 0 && c / 50 ≤ 10 then " — Chi space(" ++ toString (c / 50) ++ ")" else ""
    { name := "spacing-" ++ toString i
      scssExpression := value
      comment := some (value ++ (if c > 0 then " (" ++ toString px ++ "px)" else "") ++ spaceNote)
      type := "spacing"
      category := "spacing" })

/-- `SYNTHETIC_SPACING_TOKENS` (source line 165). -/
def SYNTHETIC_SPACING_TOKENS : List SyntheticToken := buildSpacingScale

/-- `SYNTHETIC_BORDER_WIDTH_TOKENS` (source lines 171-177). -/
def SYNTHETIC_BORDER_WIDTH_TOKENS : List SyntheticToken :=
  [⟨"border-width-0", "0", some "0 (0px)", "borderWidth", "border-width"⟩,
   ⟨"border-width-1", "0.0625rem", some "0.0625rem (1px) — standard", "borderWidth", "border-width"⟩,
   ⟨"border-width-2", "0.125rem", some "0.125rem (2px) — active/emphasis", "borderWidth", "border-width"⟩,
   ⟨"border-width-3", "0.1875rem", some "0.1875rem (3px) — heavy (Lumen buttons)", "borderWidth", "border-width"⟩,
   ⟨"border-width-4", "0.25rem", some "0.25rem (4px) — max", "borderWidth", "border-width"⟩]

/-- `SYNTHETIC_DURATION_TOKENS` (source lines 183-192). -/
def SYNTHETIC_DURATION_TOKENS : List SyntheticToken :=
  [⟨"duration-fastest", "0.075s", some "0.075s (75ms) — collapse/expand height", "duration", "motion"⟩,
   ⟨"duration-faster", "0.1s", some "0.1s (100ms) — hover micro-interactions", "duration", "motion"⟩,
   ⟨"duration-fast", "0.15s", some "0.15s (150ms) — input focus, tags", "duration", "motion"⟩,
   ⟨"duration-normal", "0.2s", some "0.2s (200ms) — general purpose default", "duration", "motion"⟩,
   ⟨"duration-slow", "0.3s", some "0.3s (300ms) — toggle switch, tabs", "duration", "motion"⟩,
   ⟨"duration-slower", "0.4s", some "0.4s (400ms) — header search", "duration", "motion"⟩,
   ⟨"duration-slowest", "0.5s", some "0.5s (500ms) — modal, drawer, backdrop", "duration", "motion"⟩,
   ⟨"duration-skeleton", "2s", some "2s (2000ms) — skeleton loading animation", "duration", "motion"⟩]

/-- `SYNTHETIC_EASING_TOKENS` (source lines 197-203). -/
def SYNTHETIC_EASING_TOKENS : List SyntheticToken :=
  [⟨"ease", "ease", some "Ease — cards, sidenav", "easing", "motion"⟩,
   ⟨"ease-in", "ease-in", some "Ease-in — buttons, links, carousel", "easing", "motion"⟩,
   ⟨"ease-out", "ease-out", some "Ease-out — accordion height collapse", "easing", "motion"⟩,
   ⟨"ease-in-out", "ease-in-out", some "Ease-in-out — general purpose (most common)", "easing", "motion"⟩,
   ⟨"ease-bounce", "cubic-bezier(1, 0.38, 0, 1.19)", some "Bounce — toggle switch", "easing", "motion"⟩]

/-- `ALL_SYNTHETIC_TOKENS` (source lines 206-212). -/
def ALL_SYNTHETIC_TOKENS : List (List SyntheticToken) :=
  [SYNTHETIC_SHADOW_TOKENS, SYNTHETIC_SPACING_TOKENS, SYNTHETIC_BORDER_WIDTH_TOKENS,
   SYNTHETIC_DURATION_TOKENS, SYNTHETIC_EASING_TOKENS]

/-- `ALL_SYNTHETIC_TOKENS.reduce((sum, arr) => sum + arr.length, 0)` (source line 367). -/
def syntheticTotal : Nat := (ALL_SYNTHETIC_TOKENS.map List.length).sum

-- =============================================================================
-- CSS custom-property names (source lines 325-335)
-- =============================================================================

/-- `const PREFIX = 'chi'` (source line 37). -/
def PREFIX : String := "chi"

/-- `toCssCustomProp` (source lines 325-327). -/
def toCssCustomProp (scssName : String) : String := "--" ++ PREFIX ++ "-" ++ scssName

/-- `toScssInterpolation` (source lines 333-335). -/
def toScssInterpolation (scssVarName : String) : String := "#\x7b$" ++ scssVarName ++ "\x7d"

/-- `capitalize` (source lines 802-804). -/
def capitalize (s : String) : String :=
  match s.data with
  | [] => ""
  | c :: cs => ⟨c.toUpper :: cs⟩

-- =============================================================================
-- Token grouping (source lines 499-584)
-- =============================================================================

/-- Regex `^pre\d$`: the given prefix followed by exactly one digit. -/
def matchOneDigitSuffix (pre : String) (s : String) : Bool :=
  match s.data.dropPrefix? pre.data with
  | some [d] => d.isDigit
  | _ => false

/-- The group label assigned to a foundation token by `groupFoundationTokens`
(source lines 511-547): the first matching branch of the if/else chain. -/
def foundationLabel (n : String) : String :=
  if strStartsWith n "font-family-" then "Typography - Font Family"
  else if matchExactAny (["3xl", "2xl", "xl", "lg", "md", "sm", "xs", "2xs", "base"].map
    (fun a => "font-size-" ++ a)) n then "Typography - Font Size (Text)"
  else if matchOneDigitSuffix "font-size-h" n then "Typography - Font Size (Headings)"
  else if matchExactAny (["light", "normal", "medium", "semi-bold", "bold", "extra-bold",
    "black", "base"].map (fun a => "font-weight-" ++ a)) n then "Typography - Font Weight"
  else if matchOneDigitSuffix "font-weight-h" n then "Typography - Font Weight (Headings)"
  else if matchExactAny (["base", "xl", "lg", "md", "sm"].map
    (fun a => "line-height-" ++ a)) n then "Typography - Line Height"
  else if matchOneDigitSuffix "line-height-h" n then "Typography - Line Height (Headings)"
  else if strStartsWith n "color-grey-" then "Colors - Grey Ramp"
  else if strStartsWith n "color-red-" then "Colors - Red Ramp"
  else if strStartsWith n "color-pink-" then "Colors - Pink Ramp"
  else if strStartsWith n "color-purple-" then "Colors - Purple Ramp"
  else if strStartsWith n "color-indigo-" then "Colors - Indigo Ramp"
  else if strStartsWith n "color-navy-" then "Colors - Navy Ramp"
  else if strStartsWith n "color-bright-blue-" then "Colors - Bright Blue Ramp"
  else if strStartsWith n "color-blue-" then "Colors - Blue Ramp"
  else if strStartsWith n "color-cyan-" then "Colors - Cyan Ramp"
  else if strStartsWith n "color-teal-blue-" then "Colors - Teal Blue Ramp"
  else if strStartsWith n "color-teal-" then "Colors - Teal Ramp"
  else if strStartsWith n "color-mint-" then "Colors - Mint Ramp"
  else if strStartsWith n "color-green-" then "Colors - Green Ramp"
  else if strStartsWith n "color-yellow-" then "Colors - Yellow Ramp"
  else if strStartsWith n "color-orange-" then "Colors - Orange Ramp"
  else if n == "color-black" || n == "color-white" then "Colors - Black & White"
  else if n == "base-unit" then "Base Unit"
  else if strStartsWith n "opacity-" then "Opacity Scale"
  else if strStartsWith n "border-radius" then "Border Radius"
  else if strStartsWith n "focus-" then "Focus"
  else if strStartsWith n "link-" then "Link"
  else if strStartsWith n "icon-size-" then "Icon Sizing"
  else if strEndsWith n "-breakpoint" then "Breakpoints"
  else if strStartsWith n "zindex-" then "Z-Index Scale"
  else "Other Foundation"

/-- The group label assigned to a semantic token by `groupSemanticTokens`
(source lines 569-577). -/
def semanticLabel (n : String) : String :=
  if strStartsWith n "color-text-" then "Text Colors"
  else if strStartsWith n "color-icon-" then "Icon Colors"
  else if strStartsWith n "color-border-" then "Border Colors"
  else if strStartsWith n "color-background-" then "Background Colors"
  else "Other Semantic"

/-- Group a token list by a label function, preserving first-occurrence order of the labels
and the original order inside each group — the observable behaviour of the
`Map`/`order`-based `addToGroup` accumulation in the source. -/
def groupByLabel (lab : ScssVariable → String) (ts : List ScssVariable) :
    List (String × List ScssVariable) :=
  (dedupFirst (ts.map lab)).map (fun g => (g, ts.filter (fun t => lab t == g)))

/-- `groupFoundationTokens` (source lines 499-555). -/
def groupFoundationTokens (ts : List ScssVariable) : List (String × List ScssVariable) :=
  groupByLabel (fun t => foundationLabel t.name) ts

/-- `groupSemanticTokens` (source lines 557-584). -/
def groupSemanticTokens (ts : List ScssVariable) : List (String × List ScssVariable) :=
  groupByLabel (fun t => semanticLabel t.name) ts

-- =============================================================================
-- SCSS file generator (source lines 341-493)
-- =============================================================================

/-- The `THEMES` literal type (source lines 25-26). -/
inductive ThemeT where
  | lumen
  | connect
  | brightspeed
  | centurylink
  | colt
  | portal
deriving DecidableEq, Repr

/-- The string value of a theme name. -/
def themeStr : ThemeT → String
  | .lumen => "lumen"
  | .connect => "connect"
  | .brightspeed => "brightspeed"
  | .centurylink => "centurylink"
  | .colt => "colt"
  | .portal => "portal"

/-- TS interface `GeneratedOutput` (source lines 341-346). -/
structure GeneratedOutput where
  scss : String
  foundationCount : Nat
  semanticCount : Nat
  totalCount : Nat
deriving DecidableEq, Repr

/-- The banner line `// ===…===` (77 equals signs). -/
def eqBanner : String := "// " ++ (⟨repChar '=' 77⟩ : String)

/-- The deduplication of foundation tokens keyed by name (source lines 361-365):
a JavaScript `Map` keyed by `name` keeps first-insertion key order and the last value
set for each key. -/
def dedupByName (ts : List ScssVariable) : List ScssVariable :=
  (dedupFirst (ts.map (fun t => t.name))).map
    (fun n => (ts.filter (fun t => t.name == n)).getLastD default)

/-- The `foundationTokens` list of `generateCssVariablesScss` (source lines 354-356). -/
def foundationTokensOf (themeVars globalVars : List ScssVariable) (layers : List Layer) :
    List ScssVariable :=
  if Layer.foundation ∈ layers then
    globalVars.filter (fun v => v.layer == Layer.foundation) ++
      themeVars.filter (fun v => v.layer == Layer.foundation)
  else []

/-- The deduplicated foundation list of `generateCssVariablesScss` (source lines 361-365). -/
def dedupedFoundationOf (themeVars globalVars : List ScssVariable) (layers : List Layer) :
    List ScssVariable :=
  dedupByName (foundationTokensOf themeVars globalVars layers)

/-- The `semanticTokens` list of `generateCssVariablesScss` (source line 358). -/
def semanticTokensOf (themeVars : List ScssVariable) (layers : List Layer) :
    List ScssVariable :=
  if Layer.semantic ∈ layers then themeVars.filter (fun v => v.layer == Layer.semantic)
  else []

/-- The comment suffix appended to an emitted declaration line:
`token.comment ? ` // ${token.comment}` : ''` — note that an empty-string comment
is falsy in JavaScript and produces no suffix. -/
def tokenCommentSuffix (c : Option String) : String :=
  match c with
  | some c => if c == "" then "" else " // " ++ c
  | none => ""

/-- A foundation/semantic declaration line (source lines 406-409 and 459-462). -/
def tokenLine (t : ScssVariable) : String :=
  "  " ++ toCssCustomProp t.name ++ ": " ++ toScssInterpolation t.name ++ ";" ++
    tokenCommentSuffix t.comment

/-- A synthetic-token declaration line (source lines 426-431): only `map-get(` expressions
are wrapped in SCSS interpolation. -/
def synLine (t : SyntheticToken) : String :=
  let value :=
    if strIncludes t.scssExpression "map-get(" then "#\x7b" ++ t.scssExpression ++ "\x7d"
    else t.scssExpression
  "  " ++ toCssCustomProp t.name ++ ": " ++ value ++ ";" ++ tokenCommentSuffix t.comment

/-- A group header line `  // ── name ───…──` (source lines 404, 424, 457). -/
def groupHeader (g : String) : String :=
  "  // ── " ++ g ++ " " ++ (⟨repChar '─' (60 - g.data.length)⟩ : String) ++ "──"

/-- The synthetic scale sections in emission order (source lines 415-421). -/
def syntheticScales : List (String × List SyntheticToken) :=
  [("Shadow Scale", SYNTHETIC_SHADOW_TOKENS),
   ("Spacing Scale", SYNTHETIC_SPACING_TOKENS),
   ("Border Width Scale", SYNTHETIC_BORDER_WIDTH_TOKENS),
   ("Transition Duration Scale", SYNTHETIC_DURATION_TOKENS),
   ("Easing Functions", SYNTHETIC_EASING_TOKENS)]

/-- The header lines pushed first (source lines 375-391). -/
def headerLines (theme : ThemeT) (now : String)
    (totalCount foundationCount semanticCount : Nat) : List String :=
  [eqBanner,
   "// CSS Custom Properties - " ++ capitalize (themeStr theme) ++ " Theme",
   "// Generated by: scripts/generate-css-custom-properties.ts",
   "// Generated at: " ++ now,
   "// Total Properties: " ++ toString totalCount,
   "// Foundation: " ++ toString foundationCount ++ " | Semantic: " ++ toString semanticCount,
   "// All foundation + semantic tokens at :root (globally accessible)",
   "// Legacy properties under %css-variables / .chi (backward compat)",
   eqBanner,
   "",
   "@import \x27_global-variables\x27;",
   "@import \x27_variables\x27;",
   "@import \x27_global-mixins\x27;",
   "@import \x27_mixins\x27;",
   "",
   "// sass-lint:disable-all",
   ""]

/-- The foundation `:root` block (source lines 393-438): emitted only when the
deduplicated foundation list is non-empty; grouped tokens, then the synthetic scales. -/
def foundationBlockLines (deduped : List ScssVariable) : List String :=
  if deduped.length > 0 then
    [eqBanner,
     "// Foundation Layer - :root scope (universal, not theme-switchable)",
     eqBanner,
     ":root \x7b"] ++
    (groupFoundationTokens deduped).flatMap
      (fun g => groupHeader g.1 :: (g.2.map tokenLine ++ [""])) ++
    syntheticScales.flatMap
      (fun s => groupHeader s.1 :: (s.2.map synLine ++ [""])) ++
    ["\x7d", ""]
  else []

/-- The legacy `%css-variables` block (source lines 471-482). -/
def legacyLines : List String :=
  [eqBanner,
   "// Legacy Custom Properties (backward compat — kept under %css-variables / .chi)",
   eqBanner,
   "%css-variables \x7b",
   "  --color-background-primary: #\x7b$color-background-primary\x7d;",
   "  --color-background-secondary: #\x7b$color-background-secondary\x7d;",
   "  --color-link-cta-icon: #\x7b$link-cta-icon-color\x7d;",
   "  --color-marketing-icon-primary: #\x7b$marketing-icon-primary-color\x7d;",
   "  --color-marketing-icon-secondary: #\x7b$marketing-icon-secondary-color\x7d;",
   "  --color-marketing-icon-tertiary: #\x7b$marketing-icon-tertiary-color\x7d;",
   "  --color-marketing-icon-shadow: #\x7b$marketing-icon-shadow-color\x7d;",
   "\x7d"]

/-- The semantic `:root` block plus the legacy block (source lines 441-483): emitted only
when there are semantic tokens; the three-line section banner is skipped when no foundation
block was emitted. -/
def semanticBlockLines (dedupedLen : Nat) (semanticTokens : List ScssVariable) :
    List String :=
  if semanticTokens.length > 0 then
    (if dedupedLen == 0 then [":root \x7b"]
     else
       [eqBanner,
        "// Semantic Layer - :root scope (globally accessible, theme-specific values)",
        eqBanner,
        ":root \x7b"]) ++
    (groupSemanticTokens semanticTokens).flatMap
      (fun g => groupHeader g.1 :: (g.2.map tokenLine ++ [""])) ++
    ["\x7d", ""] ++
    legacyLines
  else []

/-- All lines pushed by `generateCssVariablesScss` in order, including the final empty
line (source line 485). -/
def generatedLines (deduped semanticTokens : List ScssVariable) (theme : ThemeT)
    (now : String) (totalCount foundationCount semanticCount : Nat) : List String :=
  headerLines theme now totalCount foundationCount semanticCount ++
  foundationBlockLines deduped ++
  semanticBlockLines deduped.length semanticTokens ++
  [""]

/-- `generateCssVariablesScss` (source lines 348-493).  `now` stands for the
`new Date().toISOString()` timestamp. -/
def generateCssVariablesScss (themeVars globalVars : List ScssVariable) (theme : ThemeT)
    (layers : List Layer) (now : String) : GeneratedOutput :=
  let dedupedFoundation := dedupedFoundationOf themeVars globalVars layers
  let semanticTokens := semanticTokensOf themeVars layers
  let foundationCount := dedupedFoundation.length + syntheticTotal
  let semanticCount := semanticTokens.length
  let totalCount := foundationCount + semanticCount
  { scss := joinLinesStr
      (generatedLines dedupedFoundation semanticTokens theme now totalCount foundationCount
        semanticCount)
    foundationCount := foundationCount
    semanticCount := semanticCount
    totalCount := totalCount }

/-- Whether a line is a `--chi-` custom-property declaration: after left-trimming it
starts with `--chi-`. -/
def isChiLine (l : List Char) : Bool :=
  hasPre "--chi-".data (trimL l)

/-- The number of `--chi-` custom-property declarations in a generated SCSS text. -/
def countChi (scss : String) : Nat :=
  (splitLines scss.data).countP isChiLine

-- =============================================================================
-- JSON token metadata (source lines 590-796)
-- =============================================================================

/-- TS interface `TokenEntry` (source lines 607-615). -/
structure TokenEntry where
  scssVariable : String
  cssVariable : String
  rawValue : String
  resolvedValue : String
  type : String
  category : String
  comment : Option String
deriving DecidableEq, Repr

/-- The `tokenCount` object of `TokenMetadata` (source lines 594-600). -/
structure TokenCount where
  foundation : Nat
  semantic : Nat
  component : Nat
  total : Nat
  cssCustomProperties : Nat
deriving DecidableEq, Repr

/-- TS interface `TokenMetadata` (source lines 590-605), with the two `tokens` records
represented as insertion-ordered association lists (JavaScript object key semantics). -/
structure TokenMetadata where
  theme : String
  version : String
  generatedAt : String
  tokenCount : TokenCount
  foundationEntries : List (String × TokenEntry)
  semanticEntries : List (String × TokenEntry)
deriving DecidableEq, Repr

/-- JavaScript object assignment `obj[k] = v`: replace in place when the key exists,
append otherwise. -/
def objInsert (k : String) (v : TokenEntry) (al : List (String × TokenEntry)) :
    List (String × TokenEntry) :=
  if al.any (fun p => p.1 == k) then al.map (fun p => if p.1 == k then (k, v) else p)
  else al ++ [(k, v)]

/-- JavaScript object read `obj[k]`. -/
def lookupObj (k : String) (al : List (String × TokenEntry)) : Option TokenEntry :=
  (al.find? (fun p => p.1 == k)).map (fun p => p.2)

/-- `inferTokenType` (source lines 756-775). -/
def inferTokenType (name value : String) : String :=
  if strStartsWith name "color-" || strStartsWith name "focus-color" then "color"
  else if strStartsWith name "font-family-" then "fontFamily"
  else if strStartsWith name "font-size-" then "fontSize"
  else if strStartsWith name "font-weight-" then "fontWeight"
  else if strStartsWith name "line-height" then "lineHeight"
  else if strStartsWith name "opacity-" then "opacity"
  else if strStartsWith name "border-radius" then "borderRadius"
  else if strStartsWith name "border-width-" then "borderWidth"
  else if strStartsWith name "icon-size-" then "size"
  else if name == "base-unit" then "dimension"
  else if strStartsWith name "link-" then "color"
  else if strStartsWith name "shadow-" then "shadow"
  else if strStartsWith name "spacing-" then "spacing"
  else if strStartsWith name "duration-" then "duration"
  else if strStartsWith name "ease" then "easing"
  else if strEndsWith name "-breakpoint" then "breakpoint"
  else if strStartsWith name "zindex-" then "zIndex"
  else "other"

/-- `inferCategory` (source lines 777-796). -/
def inferCategory (name : String) : String :=
  if strStartsWith name "font-" || strStartsWith name "line-height" then "typography"
  else if strStartsWith name "color-text-" then "text-colors"
  else if strStartsWith name "color-icon-" then "icon-colors"
  else if strStartsWith name "color-border-" then "border-colors"
  else if strStartsWith name "color-background-" then "background-colors"
  else if strStartsWith name "color-" then "color-palette"
  else if strStartsWith name "opacity-" then "opacity"
  else if strStartsWith name "border-radius" then "border-radius"
  else if strStartsWith name "border-width-" then "border-width"
  else if strStartsWith name "icon-size" then "icon-sizing"
  else if strStartsWith name "focus-" || strStartsWith name "link-" then "interactive"
  else if name == "base-unit" then "spacing"
  else if strStartsWith name "spacing-" then "spacing"
  else if strStartsWith name "shadow-" then "elevation"
  else if strStartsWith name "duration-" || strStartsWith name "ease" then "motion"
  else if strEndsWith name "-breakpoint" then "breakpoints"
  else if strStartsWith name "zindex-" then "z-index"
  else "other"

/-- The `...(token.comment ? { comment: token.comment } : {})` spread: an empty string is
falsy and omits the field. -/
def commentField (c : Option String) : Option String :=
  match c with
  | some c => if c == "" then none else some c
  | none => none

/-- A metadata entry built from a parsed variable (source lines 696-706 and 726-736). -/
def entryOfVar (t : ScssVariable) : TokenEntry :=
  { scssVariable := "$" ++ t.name
    cssVariable := toCssCustomProp t.name
    rawValue := t.rawValue
    resolvedValue := ""
    type := inferTokenType t.name t.rawValue
    category := inferCategory t.name
    comment := commentField t.comment }

/-- A metadata entry built from a synthetic token (source lines 709-723). -/
def entryOfSyn (t : SyntheticToken) : TokenEntry :=
  { scssVariable :=
      if strIncludes t.scssExpression "map-get" then
        "map-get($shadow, " ++ (⟨replaceFirst "shadow-".data [] t.name.data⟩ : String) ++ ")"
      else t.scssExpression
    cssVariable := toCssCustomProp t.name
    rawValue := t.scssExpression
    resolvedValue := ""
    type := inferTokenType t.name t.scssExpression
    category := inferCategory t.name
    comment := commentField t.comment }

/-- The object-building loop `entries[token.name] = {...}` over parsed variables
(source lines 696-706 and 726-736). -/
def buildEntries (ts : List ScssVariable) : List (String × TokenEntry) :=
  ts.foldl (fun al t => objInsert t.name (entryOfVar t) al) []

/-- The foundation entries record: the deduplicated foundation tokens, then ALL synthetic
tokens (source lines 695-723). -/
def buildFoundationEntries (dedupedFoundation : List ScssVariable) :
    List (String × TokenEntry) :=
  ALL_SYNTHETIC_TOKENS.foldl
    (fun al arr => arr.foldl (fun al t => objInsert t.name (entryOfSyn t) al) al)
    (buildEntries dedupedFoundation)

/-- `generateTokenMetadata` (source lines 676-754).  `now` stands for the
`new Date().toISOString()` timestamp. -/
def generateTokenMetadata (themeVars globalVars : List ScssVariable) (theme : ThemeT)
    (generatedOutput : GeneratedOutput) (now : String) : TokenMetadata :=
  let allFoundation :=
    globalVars.filter (fun v => v.layer == Layer.foundation) ++
      themeVars.filter (fun v => v.layer == Layer.foundation)
  let dedupedFoundation := dedupByName allFoundation
  let semanticTokens := themeVars.filter (fun v => v.layer == Layer.semantic)
  let componentCount := (themeVars.filter (fun v => v.layer == Layer.component)).length
  let fe := buildFoundationEntries dedupedFoundation
  let se := buildEntries semanticTokens
  { theme := themeStr theme
    version := "7.0.0"
    generatedAt := now
    tokenCount :=
      { foundation := generatedOutput.foundationCount
        semantic := generatedOutput.semanticCount
        component := componentCount
        total := generatedOutput.foundationCount + generatedOutput.semanticCount +
          componentCount
        cssCustomProperties := generatedOutput.totalCount }
    foundationEntries := fe
    semanticEntries := se }

-- =============================================================================
-- Popover lifecycle (popover source, lines 1016-1182 of the combined file)
-- =============================================================================

/-- The state a popover's show/hide lifecycle acts on: the `_shown` flag and the
`lastActioned` timestamp used by `allowConsecutiveActions`.  DOM side effects
(events, classes, aria attributes, animation) do not feed back into this state. -/
structure PopoverState where
  shown : Bool
  lastActioned : Option Int
deriving DecidableEq, Repr

/-- `Popover.allowConsecutiveActions` (source lines 1159-1174): returns whether the action
is allowed and the updated state; `lastActioned` is refreshed only when the action is
allowed.  `delay` is `config.delayBetweenInteractions`, `now` the current clock value in
milliseconds. -/
def allowConsecutiveActions (delay now : Int) (s : PopoverState) :
    Bool × PopoverState :=
  match s.lastActioned with
  | none => (true, { s with lastActioned := some now })
  | some t =>
    if now - t > delay then (true, { s with lastActioned := some now })
    else (false, s)

/-- `Popover.show` (source lines 1081-1122) restricted to its state effect: an early
return when already shown (before `allowConsecutiveActions` is consulted), an early
return when the action is throttled and not forced, otherwise `_shown` is set. -/
def popoverShow (delay now : Int) (force : Bool) (s : PopoverState) : PopoverState :=
  if s.shown then s
  else
    let a := allowConsecutiveActions delay now s
    if !a.1 && !force then a.2
    else { a.2 with shown := true }

/-- `Popover.hide` (source lines 1124-1157) restricted to its state effect. -/
def popoverHide (delay now : Int) (force : Bool) (s : PopoverState) : PopoverState :=
  if !s.shown then s
  else
    let a := allowConsecutiveActions delay now s
    if !a.1 && !force then a.2
    else { a.2 with shown := false }

/-- `Popover.toggle` (source lines 1176-1182): `hide()` when shown, `show()` otherwise,
with no `force` argument (JavaScript `undefined` is falsy). -/
def popoverToggle (delay now : Int) (s : PopoverState) : PopoverState :=
  if s.shown then popoverHide delay now false s else popoverShow delay now false s

-- =============================================================================
-- Theme build runner (scripts/build/css/build.js)
-- =============================================================================

/-- `allowedThemes` (build.js line 6). -/
def allowedThemes : List String :=
  ["lumen", "portal", "connect", "test", "colt", "brightspeed", "centurylink"]

/-- `deleteCssFile` (build.js lines 12-31), with the file system as oracles:
`fileExists` says whether the target css file exists, `rmFails` whether the removal
command raises.  On success it returns the targeted file name and the console-error log
(the rm failure is caught and logged, never rethrown); an invalid theme raises
`[CHI]: Invalid theme: …`.  The `error.message` suffix of the logged rm failure is
abstracted away. -/
def deleteCssFile (fileExists rmFails : Bool) (theme : String) :
    Except String (String × List String) :=
  if !allowedThemes.contains theme then
    Except.error ("[CHI]: Invalid theme: " ++ theme)
  else
    let fileName := if theme == "lumen" then "chi.css" else "chi-" ++ theme ++ ".css"
    let logs :=
      if fileExists then
        if rmFails then ["[CHI]: Error deleting " ++ fileName] else []
      else []
    Except.ok (fileName, logs)

/-- `buildTheme` (build.js lines 33-44), with the vite compile step as an oracle:
returns the console log and, when the delete step or the compile step raised, the
rethrown error (the `catch` block logs a spinner failure and rethrows). -/
def buildTheme (fileExists rmFails : Bool) (compileOk : String → Bool)
    (theme : String) : List String × Option String :=
  match deleteCssFile fileExists rmFails theme with
  | Except.error e =>
    (["[CHI]: Error during build for " ++ theme ++ " theme: " ++ e], some e)
  | Except.ok r =>
    if compileOk theme then
      (r.2 ++ ["[CHI]: Build for " ++ theme ++ " theme completed successfully"], none)
    else
      (r.2 ++ ["[CHI]: Error during build for " ++ theme ++ " theme: compile error"],
       some ("compile error: " ++ theme))

/-- `buildAllThemes` (build.js lines 46-52): builds themes in order with no `catch`,
so the first rethrown error aborts the loop.  Returns the accumulated log, the themes
whose build completed, and the aborting error if any. -/
def buildAllThemes (fileExists rmFails : Bool) (compileOk : String → Bool) :
    List String → List String × List String × Option String
  | [] => ([], [], none)
  | t :: ts =>
    let r := buildTheme fileExists rmFails compileOk t
    match r.2 with
    | some e => (r.1, [], some e)
    | none =>
      let rest := buildAllThemes fileExists rmFails compileOk ts
      (r.1 ++ rest.1, t :: rest.2.1, rest.2.2)

-- =============================================================================
-- Generator main loop (generate-css-custom-properties.ts, lines 858-986)
-- =============================================================================

/-- The observable outcome of a generator run: warnings printed, themes whose SCSS file
was written, themes whose JSON metadata file was written, and the process exit code. -/
structure RunResult where
  warnings : List String
  scssWritten : List String
  jsonWritten : List String
  exitCode : Nat
deriving DecidableEq, Repr

/-- The per-theme loop of `main` (source lines 874-934), with the file system and the
sass compiler as oracles: a missing `_variables.scss` prints a warning and `continue`s;
`resolveTokenValues` catches a failed sass compile, prints a warning and returns an empty
map, after which the JSON metadata is still written; a normal run ends with exit code 0
(`main().catch` exits 1 only on an uncaught error, which this loop never raises). -/
def mainLoop (fsExists compileOk : ThemeT → Bool) (jsonOnly dryRun : Bool) :
    List ThemeT → RunResult
  | [] => ⟨[], [], [], 0⟩
  | t :: ts =>
    let rest := mainLoop fsExists compileOk jsonOnly dryRun ts
    if !fsExists t then
      { rest with
          warnings := ("Theme \x22" ++ themeStr t ++ "\x22 variables file not found") ::
            rest.warnings }
    else if dryRun then rest
    else
      { warnings :=
          if compileOk t then rest.warnings
          else ("Failed to resolve values for " ++ themeStr t) :: rest.warnings
        scssWritten :=
          if jsonOnly then rest.scssWritten else themeStr t :: rest.scssWritten
        jsonWritten := themeStr t :: rest.jsonWritten
        exitCode := 0 }

/-- `main` (source lines 858-986) restricted to its failure-handling skeleton. -/
def mainRun (themes : List ThemeT) (fsExists compileOk : ThemeT → Bool)
    (jsonOnly dryRun : Bool) : RunResult :=
  mainLoop fsExists compileOk jsonOnly dryRun themes

-- =============================================================================
-- Well-formed input lines for the parser theorems (claim C2)
-- =============================================================================

/-- An input line for `parseScssVariables`: either a declaration
`$name: value;` with an optional inline ` // comment`, or any line that matches
no declaration at all. -/
inductive LineSpec where
  | decl (name value : String) (comment : Option String)
  | plain (raw : String)
deriving DecidableEq, Repr

/-- Well-formedness of a declared name: non-empty, only `[a-zA-Z0-9_-]`. -/
def nameOkB (n : String) : Bool :=
  !n.data.isEmpty && n.data.all nameChar

/-- Well-formedness of a declared value: non-empty, no surrounding whitespace, free of
`//` (which would be ambiguous with an inline comment) and of line terminators. -/
def valueOkB (v : String) : Bool :=
  !v.data.isEmpty && !wsChar (v.data.headD ' ') && !wsChar (v.data.getLastD ' ') &&
    !hasSS v.data && v.data.all dotChar

/-- Well-formedness of an inline comment: when present it is non-empty, trimmed, free of
semicolons (which would move the last semicolon of the line) and of line terminators. -/
def commentOkB : Option String → Bool
  | none => true
  | some c =>
    !c.data.isEmpty && !wsChar (c.data.headD ' ') && !wsChar (c.data.getLastD ' ') &&
      !hasChar ';' c.data && c.data.all dotChar

/-- Well-formedness of one input line. -/
def lineSpecOkB : LineSpec → Bool
  | .decl n v c => nameOkB n && valueOkB v && commentOkB c
  | .plain raw => (matchDecl raw.data).isNone && !raw.data.contains '\n'

/-- Render a line spec to its concrete text. -/
def renderLine : LineSpec → String
  | .decl n v none => "$" ++ n ++ ": " ++ v ++ ";"
  | .decl n v (some c) => "$" ++ n ++ ": " ++ v ++ "; // " ++ c
  | .plain raw => raw

/-- Render a whole file. -/
def renderContent (specs : List LineSpec) : String :=
  joinLinesStr (specs.map renderLine)

/-- The records claim C2 predicts: one per declaration, in file order, carrying the name
without the `$`, the declared value, the inline comment when present, the 1-based line
number, and the classification of the token. -/
def expectedRecords : Nat → List LineSpec → List ScssVariable
  | _, [] => []
  | i, .decl n v c :: rest =>
    { name := n, rawValue := v, comment := c, line := i + 1,
      layer := classifyToken ("$" ++ n) v } :: expectedRecords (i + 1) rest
  | i, .plain _ :: rest => expectedRecords (i + 1) rest

-- =============================================================================
-- The spacing scale claim C9 predicts
-- =============================================================================

/-- The rem values (in hundredths) claim C9 lists: 0, then 0.25 to 3 in steps of 0.25,
then 3.5 and 4, then the integers 5 to 24. -/
def spacingRems : List Nat :=
  [0] ++ (List.range 12).map (fun k => 25 * (k + 1)) ++ [350, 400] ++
    (List.range 20).map (fun k => 500 + 100 * k)

-- =============================================================================
-- Hypothesis predicates for the generator theorems
-- =============================================================================

/-- A variable list is *parsed*: every record's layer is the classification of its own
name and value, as `parseScssVariables` guarantees (source line 272). -/
def ClassifiedVars (vs : List ScssVariable) : Prop :=
  ∀ v ∈ vs, v.layer = classifyToken ("$" ++ v.name) v.rawValue

/-- A record's emitted line stays a single line: its name and comment are free of
newline characters. -/
def varNoNL (v : ScssVariable) : Bool :=
  !v.name.data.contains '\n' &&
    (match v.comment with
     | some c => !c.data.contains '\n'
     | none => true)

/-- The SCSS custom-property names emitted in the foundation `:root` block, in emission
order: the grouped deduplicated foundation tokens followed by the synthetic scale tokens —
nothing when the block is not emitted (compare `foundationBlockLines`). -/
def emittedFoundationPropNames (deduped : List ScssVariable) : List String :=
  if deduped.length > 0 then
    (groupFoundationTokens deduped).flatMap (fun g => g.2.map (fun t => toCssCustomProp t.name)) ++
      syntheticScales.flatMap (fun s => s.2.map (fun t => toCssCustomProp t.name))
  else []

/-- The names of all synthetic tokens, in emission order. -/
def syntheticNames : List String :=
  (ALL_SYNTHETIC_TOKENS.map (fun arr => arr.map (fun t => t.name))).flatten

-- =============================================================================
-- Concrete sample inputs used by witnesses
-- =============================================================================

/-- The rendered text following the `;` of a declaration line: nothing, or a ` // c`
inline comment. -/
def commentTail : Option String → List Char
  | none => []
  | some c => ' ' :: '/' :: '/' :: ' ' :: c.data

/-- Sample parsed theme variables: one foundation token overriding a global. -/
def sampleThemeVars : List ScssVariable :=
  [{ name := "color-red-50", rawValue := "#f00", comment := none, line := 1,
     layer := Layer.foundation }]

/-- Sample parsed global variables. -/
def sampleGlobalVars : List ScssVariable :=
  [{ name := "color-red-50", rawValue := "#e00", comment := none, line := 1,
     layer := Layer.foundation },
   { name := "color-grey-10", rawValue := "#eee", comment := none, line := 2,
     layer := Layer.foundation }]

/-- A sample parsed semantic variable. -/
def sampleSemanticVar : ScssVariable :=
  { name := "color-text-base", rawValue := "#111", comment := none, line := 1,
    layer := Layer.semantic }

-- =============================================================================
-- Helper lemmas: prefixes, trims, line splitting
-- =============================================================================

theorem hasPre_self_append (p x : List Char) : hasPre p (p ++ x) = true := by
  induction p with
  | nil => rfl
  | cons c cs ih => simp [hasPre, ih]

theorem hasPre_cons_ne (p : Char) (ps : List Char) (c : Char) (l : List Char)
    (h : p ≠ c) : hasPre (p :: ps) (c :: l) = false := by
  simp [hasPre, h]

theorem trimL_cons_of_not_ws (c : Char) (l : List Char) (h : wsChar c = false) :
    trimL (c :: l) = c :: l := by
  simp [trimL, List.dropWhile_cons, h]

theorem trimL_cons_of_ws (c : Char) (l : List Char) (h : wsChar c = true) :
    trimL (c :: l) = trimL l := by
  simp [trimL, List.dropWhile_cons, h]

theorem trimR_concat_of_not_ws (l : List Char) (c : Char) (h : wsChar c = false) :
    trimR (l ++ [c]) = l ++ [c] := by
  simp [trimR, List.dropWhile_cons, h]

theorem trimR_nil : trimR [] = [] := rfl

theorem trimC_eq_self (l : List Char)
    (h1 : wsChar (l.headD ' ') = false) (h2 : wsChar (l.getLastD ' ') = false)
    (hne : l ≠ []) : trimC l = l := by
  rcases List.eq_nil_or_concat l with rfl | ⟨L, b, rfl⟩
  · exact absurd rfl hne
  · rw [List.concat_eq_append] at h1 h2 ⊢
    rw [List.getLastD_concat] at h2
    have hL : trimL (L ++ [b]) = L ++ [b] := by
      cases L with
      | nil => simpa using trimL_cons_of_not_ws b [] (by simpa using h1)
      | cons x xs =>
        exact trimL_cons_of_not_ws x (xs ++ [b]) (by simpa using h1)
    rw [trimC, hL, trimR_concat_of_not_ws L b h2]

theorem splitLines_no_nl (l : List Char) (h : ¬ l.contains '\n') :
    splitLines l = [l] := by
  induction l with
  | nil => rfl
  | cons c cs ih =>
    simp only [List.contains_cons, Bool.or_eq_true, not_or] at h
    have hc : (c == '\n') = false := by
      cases hcc : c == '\n' <;> simp_all
    have : ¬ cs.contains '\n' := by simpa using h.2
    simp [splitLines, hc, ih this]

theorem splitLines_cons (c : Char) (cs : List Char) :
    splitLines (c :: cs) =
      if c == '\n' then [] :: splitLines cs
      else
        match splitLines cs with
        | l :: ls => (c :: l) :: ls
        | [] => [[c]] := rfl

theorem splitLines_append_nl (l rest : List Char) (h : ¬ l.contains '\n') :
    splitLines (l ++ '\n' :: rest) = l :: splitLines rest := by
  induction l with
  | nil => simp [splitLines]
  | cons c cs ih =>
    simp only [List.contains_cons, Bool.or_eq_true, not_or] at h
    have hc : (c == '\n') = false := by
      cases hcc : c == '\n' <;> simp_all
    have hcs : ¬ cs.contains '\n' := by simpa using h.2
    have hsplit := ih hcs
    rw [List.cons_append, splitLines_cons, hsplit, if_neg (by simp [hc])]

theorem splitLines_joinNL (ls : List (List Char)) (hne : ls ≠ [])
    (h : ∀ l ∈ ls, ¬ l.contains '\n') : splitLines (joinNL ls) = ls := by
  induction ls with
  | nil => exact absurd rfl hne
  | cons l rest ih =>
    cases rest with
    | nil =>
      have := h l (by simp)
      simp [joinNL, splitLines_no_nl l this]
    | cons l2 rest2 =>
      have h1 := h l (by simp)
      have hrec := ih (by simp) (fun x hx => h x (List.mem_cons_of_mem _ hx))
      rw [show joinNL (l :: l2 :: rest2) = l ++ '\n' :: joinNL (l2 :: rest2) from rfl,
        splitLines_append_nl l _ h1, hrec]

theorem countChi_joinLinesStr (ls : List String) (hne : ls ≠ [])
    (h : ∀ l ∈ ls, ¬ l.data.contains '\n') :
    countChi (joinLinesStr ls) = (ls.map String.data).countP isChiLine := by
  have hne2 : ls.map String.data ≠ [] := by
    cases ls with
    | nil => exact absurd rfl hne
    | cons a b => simp
  have h2 : ∀ l ∈ ls.map String.data, ¬ l.contains '\n' := by
    intro l hl
    obtain ⟨s, hs, rfl⟩ := List.mem_map.mp hl
    exact h s hs
  unfold countChi joinLinesStr
  rw [splitLines_joinNL _ hne2 h2]

-- =============================================================================
-- Helper lemmas: first-occurrence deduplication
-- =============================================================================

theorem mem_dedupFirstAux (a : String) (seen l : List String) :
    a ∈ dedupFirstAux seen l ↔ a ∈ l ∧ a ∉ seen := by
  induction l generalizing seen with
  | nil => simp [dedupFirstAux]
  | cons x xs ih =>
    by_cases hx : x ∈ seen
    · rw [dedupFirstAux, if_pos hx, ih]
      constructor
      · rintro ⟨h1, h2⟩; exact ⟨List.mem_cons_of_mem _ h1, h2⟩
      · rintro ⟨h1, h2⟩
        rcases List.mem_cons.mp h1 with rfl | h1
        · exact absurd hx h2
        · exact ⟨h1, h2⟩
    · rw [dedupFirstAux, if_neg hx]
      simp only [List.mem_cons, ih, not_or]
      constructor
      · rintro (rfl | ⟨h1, h2, h3⟩)
        · exact ⟨Or.inl rfl, hx⟩
        · exact ⟨Or.inr h1, h3⟩
      · rintro ⟨rfl | h1, h2⟩
        · exact Or.inl rfl
        · by_cases hax : a = x
          · exact Or.inl hax
          · exact Or.inr ⟨h1, hax, h2⟩

theorem nodup_dedupFirstAux (seen l : List String) :
    (dedupFirstAux seen l).Nodup := by
  induction l generalizing seen with
  | nil => simp [dedupFirstAux]
  | cons x xs ih =>
    by_cases hx : x ∈ seen
    · simpa [dedupFirstAux, if_pos hx] using ih seen
    · rw [dedupFirstAux, if_neg hx]
      refine List.nodup_cons.mpr ⟨?_, ih (x :: seen)⟩
      intro hmem
      exact ((mem_dedupFirstAux x (x :: seen) xs).mp hmem).2 (List.mem_cons_self _ _)

theorem mem_dedupFirst (a : String) (l : List String) :
    a ∈ dedupFirst l ↔ a ∈ l := by
  simp [dedupFirst, mem_dedupFirstAux]

theorem nodup_dedupFirst (l : List String) : (dedupFirst l).Nodup :=
  nodup_dedupFirstAux [] l

-- =============================================================================
-- Claim C1: classification precedence
-- =============================================================================

/-- C1: `classifyToken` classifies by the pattern tables with a fixed precedence — it
returns `excluded` exactly when the full name matches an `EXCLUDE_PATTERNS` entry or the
value starts with `(` or contains `linear-gradient`; otherwise `foundation` exactly when
a `FOUNDATION_PATTERNS` entry matches; otherwise `semantic` exactly when a
`SEMANTIC_PATTERNS` entry matches; otherwise `component`.  In particular exclusion takes
precedence over foundation and foundation over semantic. -/
theorem classifyToken_precedence (name value : String) :
    (classifyToken name value = Layer.excluded ↔
      (matchesAnyPat EXCLUDE_PATTERNS name || valueExcluded value) = true) ∧
    (classifyToken name value = Layer.foundation ↔
      (!(matchesAnyPat EXCLUDE_PATTERNS name || valueExcluded value) &&
        matchesAnyPat FOUNDATION_PATTERNS name) = true) ∧
    (classifyToken name value = Layer.semantic ↔
      (!(matchesAnyPat EXCLUDE_PATTERNS name || valueExcluded value) &&
        (!matchesAnyPat FOUNDATION_PATTERNS name &&
          matchesAnyPat SEMANTIC_PATTERNS name)) = true) ∧
    (classifyToken name value = Layer.component ↔
      (!(matchesAnyPat EXCLUDE_PATTERNS name || valueExcluded value) &&
        (!matchesAnyPat FOUNDATION_PATTERNS name &&
          !matchesAnyPat SEMANTIC_PATTERNS name)) = true) := by
  unfold classifyToken
  cases he : matchesAnyPat EXCLUDE_PATTERNS name <;>
    cases hv : valueExcluded value <;>
      cases hf : matchesAnyPat FOUNDATION_PATTERNS name <;>
        cases hs : matchesAnyPat SEMANTIC_PATTERNS name <;>
          simp

-- =============================================================================
-- Claim C6: popover lifecycle
-- =============================================================================

/-- C6: the popover lifecycle is exactly show/hide over the `shown` flag — when the
action is not throttled (or forced), `show` is a no-op on a shown popover and otherwise
sets `shown`; `hide` is a no-op on a hidden popover and otherwise clears `shown`; and
`toggle` calls `hide` exactly when shown and `show` exactly when not. -/
theorem popover_show_hide_toggle (delay now : Int) (force : Bool) (s : PopoverState) :
    (s.shown = true → popoverShow delay now force s = s) ∧
    (s.shown = false →
      ((allowConsecutiveActions delay now s).1 = true ∨ force = true) →
      (popoverShow delay now force s).shown = true) ∧
    (s.shown = false → popoverHide delay now force s = s) ∧
    (s.shown = true →
      ((allowConsecutiveActions delay now s).1 = true ∨ force = true) →
      (popoverHide delay now force s).shown = false) ∧
    (s.shown = true → popoverToggle delay now s = popoverHide delay now false s) ∧
    (s.shown = false → popoverToggle delay now s = popoverShow delay now false s) := by
  obtain ⟨sh, la⟩ := s
  refine ⟨?_, ?_, ?_, ?_, ?_, ?_⟩ <;> intro h
  · subst h; simp [popoverShow]
  · intro hallow
    subst h
    rcases hallow with hallow | hallow <;> simp [popoverShow, hallow]
  · subst h; simp [popoverHide]
  · intro hallow
    subst h
    rcases hallow with hallow | hallow <;> simp [popoverHide, hallow]
  · subst h; simp [popoverToggle]
  · subst h; simp [popoverToggle]

/-- Witness for `popover_show_hide_toggle` at concrete states. -/
theorem popover_show_hide_toggle_witness :
    (popoverShow 50 1000 false ⟨true, none⟩ = ⟨true, none⟩) ∧
    ((popoverShow 50 1000 false ⟨false, none⟩).shown = true) ∧
    ((popoverHide 50 1000 false ⟨true, some 0⟩).shown = false) ∧
    (popoverToggle 50 1000 ⟨false, some 999⟩ = popoverShow 50 1000 false ⟨false, some 999⟩) := by
  have h1 := popover_show_hide_toggle 50 1000 false ⟨true, none⟩
  have h2 := popover_show_hide_toggle 50 1000 false ⟨false, none⟩
  have h3 := popover_show_hide_toggle 50 1000 false ⟨true, some 0⟩
  have h4 := popover_show_hide_toggle 50 1000 false ⟨false, some 999⟩
  exact ⟨h1.1 rfl, h2.2.1 rfl (Or.inl (by decide)), h3.2.2.2.1 rfl (Or.inl (by decide)),
    h4.2.2.2.2.2 rfl⟩

-- =============================================================================
-- Claim C10: deleteCssFile theme validation
-- =============================================================================

/-- C10: `deleteCssFile` raises an error whose message starts `[CHI]: Invalid theme`
exactly when its theme is not one of the seven allowed themes; for an allowed theme it
never raises, and it targets `chi.css` for `lumen` and `chi-<theme>.css` otherwise. -/
theorem deleteCssFile_validation (fileExists rmFails : Bool) (theme : String) :
    ((∃ r, deleteCssFile fileExists rmFails theme = Except.ok r) ↔
      theme ∈ allowedThemes) ∧
    (∀ e, deleteCssFile fileExists rmFails theme = Except.error e →
      strStartsWith e "[CHI]: Invalid theme" = true) ∧
    (∀ fn logs, deleteCssFile fileExists rmFails theme = Except.ok (fn, logs) →
      fn = if theme = "lumen" then "chi.css" else "chi-" ++ theme ++ ".css") := by
  unfold deleteCssFile
  by_cases hmem : theme ∈ allowedThemes
  · have hc : allowedThemes.contains theme = true := by simpa using hmem
    rw [hc]
    refine ⟨Iff.intro (fun _ => hmem) (fun _ => ⟨_, rfl⟩), ?_, ?_⟩
    · intro e he; simp at he
    · intro fn logs h
      have h3 : (if (theme == "lumen") = true then "chi.css" else "chi-" ++ theme ++ ".css") =
          fn := congrArg Prod.fst (Except.ok.inj h)
      rw [← h3]
      by_cases hl : theme = "lumen" <;> simp [hl]
  · have hc : allowedThemes.contains theme = false := by simpa using hmem
    rw [hc]
    refine ⟨Iff.intro ?_ (fun h => absurd h hmem), ?_, ?_⟩
    · rintro ⟨r, hr⟩; simp at hr
    · intro e he
      rw [← Except.error.inj he]
      have hdata : ("[CHI]: Invalid theme: " ++ theme).data =
          "[CHI]: Invalid theme".data ++ (": ".data ++ theme.data) := by
        rw [String.data_append]; rfl
      unfold strStartsWith
      rw [hdata]
      exact hasPre_self_append _ _
    · intro fn logs h; simp at h

/-- Witness for `deleteCssFile_validation`: an allowed theme targets its css file, a
disallowed theme raises the tagged error. -/
theorem deleteCssFile_validation_witness :
    ("chi-portal.css" = if "portal" = "lumen" then "chi.css"
      else "chi-" ++ "portal" ++ ".css") ∧
    strStartsWith "[CHI]: Invalid theme: dark" "[CHI]: Invalid theme" = true := by
  refine ⟨(deleteCssFile_validation true false "portal").2.2 "chi-portal.css" [] rfl,
    (deleteCssFile_validation true false "dark").2.1 "[CHI]: Invalid theme: dark" rfl⟩

-- =============================================================================
-- Claim C9: the spacing scale
-- =============================================================================

/-- C9: `buildSpacingScale` returns exactly 35 tokens named `spacing-0` … `spacing-34`
with contiguous indices in order; their rem values are 0, then 0.25 to 3 in steps of
0.25, then 3.5 and 4, then the integers 5 to 24 (held in hundredths in `spacingRems`);
the value string is `0` for index 0 and `<rem>rem` otherwise; and the comment notes
`Chi space(k)` exactly when the rem value is a multiple of 0.5 with `k = rem/0.5`
at most 10. -/
theorem buildSpacingScale_shape :
    buildSpacingScale.length = 35 ∧
    buildSpacingScale.map (fun t => t.name) =
      (List.range 35).map (fun i => "spacing-" ++ toString i) ∧
    buildSpacingScale.map (fun t => t.scssExpression) =
      spacingRems.map (fun c => if c = 0 then "0" else centiToStr c ++ "rem") ∧
    (buildSpacingScale.zip spacingRems).all (fun p =>
      ((strIncludes (p.1.comment.getD "") "Chi space(" ==
        (p.2 % 50 == 0 && p.2 / 50 ≤ 10)) &&
      (!(p.2 % 50 == 0 && (p.2 / 50 ≤ 10 : Bool)) ||
        strIncludes (p.1.comment.getD "") (" — Chi space(" ++ toString (p.2 / 50) ++ ")")))) =
      true := by
  refine ⟨by decide, by decide, by decide, by decide⟩

-- =============================================================================
-- Helper lemmas: generator main loop and build runner closed forms
-- =============================================================================

theorem mainLoop_spec (fs co : ThemeT → Bool) (jo : Bool) (themes : List ThemeT) :
    mainLoop fs co jo false themes =
      { warnings := themes.flatMap (fun t =>
          if !fs t then ["Theme \x22" ++ themeStr t ++ "\x22 variables file not found"]
          else if !co t then ["Failed to resolve values for " ++ themeStr t]
          else [])
        scssWritten := if jo then [] else (themes.filter fs).map themeStr
        jsonWritten := (themes.filter fs).map themeStr
        exitCode := 0 } := by
  induction themes with
  | nil => cases jo <;> simp [mainLoop]
  | cons t ts ih =>
    rw [mainLoop, ih]
    cases hf : fs t
    · simp [hf]
    · cases hc : co t <;> cases jo <;> simp [hf, hc]

theorem buildTheme_ok_iff (fe rf : Bool) (bco : String → Bool) (t : String) :
    ((buildTheme fe rf bco t).2 = none) ↔
      (allowedThemes.contains t && bco t) = true := by
  unfold buildTheme deleteCssFile
  cases hc : allowedThemes.contains t
  · simp [hc]
  · cases hb : bco t <;> simp [hc, hb]

theorem buildAllThemes_spec (fe rf : Bool) (bco : String → Bool) (ts : List String) :
    (buildAllThemes fe rf bco ts).2.1 =
      ts.takeWhile (fun t => allowedThemes.contains t && bco t) ∧
    ((buildAllThemes fe rf bco ts).2.2 = none ↔
      ts.all (fun t => allowedThemes.contains t && bco t) = true) := by
  induction ts with
  | nil => simp [buildAllThemes]
  | cons t ts ih =>
    rw [buildAllThemes]
    rcases hok : (buildTheme fe rf bco t).2 with _ | e
    · have hgood := (buildTheme_ok_iff fe rf bco t).mp hok
      simp only [List.takeWhile_cons, List.all_cons, hgood, if_pos, Bool.true_and]
      exact ⟨by simp [ih.1], by simpa using ih.2⟩
    · have hbad : ¬ (allowedThemes.contains t && bco t) = true := by
        intro hgood
        rw [(buildTheme_ok_iff fe rf bco t).mpr hgood] at hok
        exact Option.noConfusion hok
      simp only [List.takeWhile_cons, List.all_cons]
      rw [if_neg hbad]
      constructor
      · rfl
      · simp only [Bool.and_eq_true] at hbad ⊢
        constructor
        · intro hnone; simp at hnone
        · intro ⟨h1, _⟩; exact absurd h1 hbad

-- =============================================================================
-- Claim C4: every failure exits non-zero?  (corrected)
-- =============================================================================

/-- C4 counterexample: with the `lumen` variables file missing and `portal` present, the
generator warns about `lumen` yet continues, writes `portal`'s outputs, and exits 0 — a
failing operation leaves the run continuing with partially produced results. -/
theorem mainRun_missing_file_continues_counterexample :
    (mainRun [ThemeT.lumen, ThemeT.portal] (fun t => t == ThemeT.portal) (fun _ => true)
      false false).warnings ≠ [] ∧
    (mainRun [ThemeT.lumen, ThemeT.portal] (fun t => t == ThemeT.portal) (fun _ => true)
      false false).exitCode = 0 ∧
    (mainRun [ThemeT.lumen, ThemeT.portal] (fun t => t == ThemeT.portal) (fun _ => true)
      false false).jsonWritten = ["portal"] := by
  refine ⟨by decide, by decide, by decide⟩

/-- C4 (amended): failures in the generator are reported via console warnings, but the
run continues — a missing theme variables file is warned and skipped, a failed sass
compile during value resolution is warned and the metadata is still written — and a run
that raises no uncaught error finishes with exit code 0 and with outputs exactly for the
themes whose variables file exists. -/
theorem mainRun_warns_and_continues (themes : List ThemeT)
    (fsExists compileOk : ThemeT → Bool) (jsonOnly : Bool) :
    (mainRun themes fsExists compileOk jsonOnly false).exitCode = 0 ∧
    (mainRun themes fsExists compileOk jsonOnly false).jsonWritten =
      (themes.filter fsExists).map themeStr ∧
    (mainRun themes fsExists compileOk jsonOnly false).scssWritten =
      (if jsonOnly then [] else (themes.filter fsExists).map themeStr) ∧
    (mainRun themes fsExists compileOk jsonOnly false).warnings =
      themes.flatMap (fun t =>
        if !fsExists t then ["Theme \x22" ++ themeStr t ++ "\x22 variables file not found"]
        else if !compileOk t then ["Failed to resolve values for " ++ themeStr t]
        else []) := by
  rw [mainRun, mainLoop_spec]
  exact ⟨rfl, rfl, rfl, rfl⟩

-- =============================================================================
-- Claim C5: log and continue everywhere?  (corrected)
-- =============================================================================

/-- C5 counterexample: in the theme build runner a failed external compile step does not
log-and-continue — with `lumen`'s compile failing, no theme completes and the error
aborts the loop, so `portal` is never processed. -/
theorem buildAllThemes_abort_counterexample :
    (buildAllThemes false false (fun t => t == "portal") ["lumen", "portal"]).2.1 = [] ∧
    ((buildAllThemes false false (fun t => t == "portal")
      ["lumen", "portal"]).2.2).isSome = true := by
  refine ⟨by decide, by decide⟩

/-- C5 (amended): the generator logs and continues — on a missing theme variables file
and on a failed sass compile it warns and still processes the remaining themes, exiting
0 — while the theme build runner logs the failed build and then aborts: it completes
exactly the longest prefix of themes whose delete and compile steps succeed, and
finishes without error only when every theme succeeds. -/
theorem log_and_continue_split (themes : List ThemeT) (fs co : ThemeT → Bool)
    (bthemes : List String) (bco : String → Bool) (fe rf : Bool) :
    (mainRun themes fs co false false).jsonWritten = (themes.filter fs).map themeStr ∧
    (mainRun themes fs co false false).exitCode = 0 ∧
    (buildAllThemes fe rf bco bthemes).2.1 =
      bthemes.takeWhile (fun t => allowedThemes.contains t && bco t) ∧
    ((buildAllThemes fe rf bco bthemes).2.2 = none ↔
      bthemes.all (fun t => allowedThemes.contains t && bco t) = true) := by
  rw [mainRun, mainLoop_spec]
  exact ⟨rfl, rfl, (buildAllThemes_spec fe rf bco bthemes).1,
    (buildAllThemes_spec fe rf bco bthemes).2⟩

-- =============================================================================
-- Helper lemmas: object-fold membership
-- =============================================================================

theorem mem_objInsert (p : String × TokenEntry) (k : String) (v : TokenEntry)
    (al : List (String × TokenEntry)) (h : p ∈ objInsert k v al) :
    p ∈ al ∨ p = (k, v) := by
  unfold objInsert at h
  by_cases hk : al.any (fun q => q.1 == k)
  · rw [if_pos hk] at h
    obtain ⟨q, hq, hqe⟩ := List.mem_map.mp h
    by_cases hq1 : (q.1 == k) = true
    · rw [if_pos hq1] at hqe; exact Or.inr hqe.symm
    · rw [if_neg hq1] at hqe; exact Or.inl (hqe ▸ hq)
  · rw [if_neg hk] at h
    rcases List.mem_append.mp h with h | h
    · exact Or.inl h
    · exact Or.inr (List.mem_singleton.mp h)

theorem mem_foldl_objInsert {β : Type} (key : β → String) (f : β → TokenEntry)
    (ts : List β) (al : List (String × TokenEntry)) (p : String × TokenEntry)
    (h : p ∈ ts.foldl (fun al t => objInsert (key t) (f t) al) al) :
    p ∈ al ∨ ∃ t ∈ ts, p = (key t, f t) := by
  induction ts generalizing al with
  | nil => exact Or.inl h
  | cons t ts ih =>
    rw [List.foldl_cons] at h
    rcases ih (objInsert (key t) (f t) al) h with h2 | ⟨u, hu, he⟩
    · rcases mem_objInsert p (key t) (f t) al h2 with h3 | h3
      · exact Or.inl h3
      · exact Or.inr ⟨t, by simp, h3⟩
    · exact Or.inr ⟨u, List.mem_cons_of_mem _ hu, he⟩

-- =============================================================================
-- Claim C7: semantic tokens are per-theme
-- =============================================================================

/-- C7: semantic tokens are drawn exclusively from the theme's own variables file — the
semantic metadata entries and the semantic-layer SCSS output are unchanged under any
replacement of the global variables list, and every semantic metadata entry comes from a
semantic-classified member of the theme's variable list with its name and raw value. -/
theorem semantic_tokens_per_theme (themeVars gVars gVars2 : List ScssVariable)
    (theme : ThemeT) (out out2 : GeneratedOutput) (now : String) :
    (generateTokenMetadata themeVars gVars theme out now).semanticEntries =
      (generateTokenMetadata themeVars gVars2 theme out2 now).semanticEntries ∧
    generateCssVariablesScss themeVars gVars theme [Layer.semantic] now =
      generateCssVariablesScss themeVars gVars2 theme [Layer.semantic] now ∧
    (∀ p ∈ (generateTokenMetadata themeVars gVars theme out now).semanticEntries,
      ∃ v ∈ themeVars, v.layer = Layer.semantic ∧ p.1 = v.name ∧
        p.2.rawValue = v.rawValue) := by
  refine ⟨rfl, rfl, ?_⟩
  intro p hp
  have hp2 : p ∈ buildEntries (themeVars.filter (fun v => v.layer == Layer.semantic)) :=
    hp
  rw [buildEntries] at hp2
  have hmem := mem_foldl_objInsert (fun t => t.name) entryOfVar
    (themeVars.filter (fun v => v.layer == Layer.semantic)) [] p hp2
  rcases hmem with h | ⟨t, ht, rfl⟩
  · simp at h
  · have := List.mem_filter.mp ht
    refine ⟨t, this.1, by simpa using this.2, rfl, rfl⟩

/-- Witness for `semantic_tokens_per_theme` at a concrete entry. -/
theorem semantic_tokens_per_theme_witness :
    ∃ v ∈ [sampleSemanticVar], v.layer = Layer.semantic ∧
      ("color-text-base" : String) = v.name ∧
      (entryOfVar sampleSemanticVar).rawValue = v.rawValue := by
  exact (semantic_tokens_per_theme [sampleSemanticVar] [] [] ThemeT.lumen
    ⟨"", 0, 0, 0⟩ ⟨"", 0, 0, 0⟩ "T").2.2
    ("color-text-base", entryOfVar sampleSemanticVar) (by decide)

-- =============================================================================
-- Helper lemmas for the parser correctness theorem (claim C2)
-- =============================================================================

theorem takeWhile_append_stop (p : Char → Bool) (l1 : List Char) (c : Char)
    (l2 : List Char) (h1 : l1.all p = true) (h2 : p c = false) :
    (l1 ++ c :: l2).takeWhile p = l1 := by
  induction l1 with
  | nil => simp [List.takeWhile_cons, h2]
  | cons x xs ih =>
    simp only [List.all_cons, Bool.and_eq_true] at h1
    simp [List.takeWhile_cons, h1.1, ih h1.2]

theorem dropWhile_append_stop (p : Char → Bool) (l1 : List Char) (c : Char)
    (l2 : List Char) (h1 : l1.all p = true) (h2 : p c = false) :
    (l1 ++ c :: l2).dropWhile p = c :: l2 := by
  induction l1 with
  | nil => simp [List.dropWhile_cons, h2]
  | cons x xs ih =>
    simp only [List.all_cons, Bool.and_eq_true] at h1
    simp [List.dropWhile_cons, h1.1, ih h1.2]

theorem dropWhile_head_stop (p : Char → Bool) (l : List Char)
    (h : p (l.headD ' ') = false) (hne : l ≠ []) : l.dropWhile p = l := by
  cases l with
  | nil => exact absurd rfl hne
  | cons c cs => simp only [List.headD_cons] at h; simp [List.dropWhile_cons, h]

theorem beforeLast_none (c : Char) (l : List Char) (h : ¬ l.contains c) :
    beforeLast c l = none := by
  induction l with
  | nil => rfl
  | cons x xs ih =>
    simp only [List.contains_cons, Bool.or_eq_true, not_or] at h
    have hx : (x == c) = false := by
      cases hb : x == c
      · rfl
      · exact absurd (by simpa [eq_comm] using (beq_iff_eq.mp hb)) (by simpa using h.1)
    rw [beforeLast, ih (by simpa using h.2), hx]
    simp

theorem beforeLast_last (xs tail : List Char) (h : ¬ tail.contains ';') :
    beforeLast ';' (xs ++ ';' :: tail) = some xs := by
  induction xs with
  | nil =>
    rw [List.nil_append, beforeLast, beforeLast_none ';' tail h]
    simp
  | cons x l ih =>
    rw [List.cons_append, beforeLast, ih]

theorem hasSS_append_nonslash (xs : List Char) (c : Char) (ys : List Char)
    (h1 : hasSS xs = false) (h2 : c ≠ '/') :
    hasSS (xs ++ c :: ys) = hasSS (c :: ys) := by
  induction xs with
  | nil => rfl
  | cons x l ih =>
    rw [hasSS] at h1
    simp only [Bool.or_eq_false_iff] at h1
    rw [List.cons_append, hasSS, ih h1.2]
    cases l with
    | nil =>
      simp only [List.nil_append]
      have : (x == '/' && (c :: ys).head? == some '/') = false := by
        cases hx : x == '/'
        · simp
        · simp only [Bool.true_and, hx]
          cases hc : ((c :: ys).head? == some '/')
          · rfl
          · exact absurd (by simpa using hc) h2
      rw [this]
      simp
    | cons y l2 =>
      have : (x == '/' && ((y :: l2) ++ c :: ys).head? == some '/') =
          (x == '/' && (y :: l2).head? == some '/') := by simp
      rw [this, h1.1]
      simp

theorem findComment_no_ss (l : List Char) (h : hasSS l = false) :
    findComment l = none := by
  induction l with
  | nil => rfl
  | cons c cs ih =>
    rw [hasSS] at h
    simp only [Bool.or_eq_false_iff] at h
    rw [findComment, if_neg (by rw [h.1]; exact Bool.false_ne_true)]
    exact ih h.2

theorem findComment_append_skip (xs ys : List Char) (h1 : hasSS xs = false)
    (h2 : ys.head? ≠ some '/') : findComment (xs ++ ys) = findComment ys := by
  induction xs with
  | nil => rfl
  | cons x l ih =>
    rw [hasSS] at h1
    simp only [Bool.or_eq_false_iff] at h1
    rw [List.cons_append, findComment]
    have hguard : (x == '/' && (l ++ ys).head? == some '/') = false := by
      cases l with
      | nil =>
        simp only [List.nil_append]
        cases hx : x == '/'
        · simp
        · cases hy : ys.head? == some '/'
          · simp [hy]
          · exact absurd (by simpa using hy) h2
      | cons y l2 =>
        have he : ((y :: l2) ++ ys).head? = (y :: l2).head? := by simp
        rw [he]
        exact h1.1
    rw [if_neg (by rw [hguard]; exact Bool.false_ne_true)]
    exact ih h1.2

theorem nameOk_parts (n : String) (h : nameOkB n = true) :
    n.data ≠ [] ∧ n.data.all nameChar = true := by
  unfold nameOkB at h
  simp only [Bool.and_eq_true, Bool.not_eq_true'] at h
  refine ⟨?_, h.2⟩
  intro he
  rw [he] at h
  simp at h

theorem valueOk_parts (v : String) (h : valueOkB v = true) :
    v.data ≠ [] ∧ wsChar (v.data.headD ' ') = false ∧
      wsChar (v.data.getLastD ' ') = false ∧ hasSS v.data = false ∧
      v.data.all dotChar = true := by
  unfold valueOkB at h
  simp only [Bool.and_eq_true, Bool.not_eq_true'] at h
  refine ⟨?_, h.1.1.1.2, h.1.1.2, h.1.2, h.2⟩
  intro he
  rw [he] at h
  simp at h

theorem commentOk_parts (c : String) (h : commentOkB (some c) = true) :
    c.data ≠ [] ∧ wsChar (c.data.headD ' ') = false ∧
      wsChar (c.data.getLastD ' ') = false ∧ ¬ c.data.contains ';' ∧
      c.data.all dotChar = true := by
  unfold commentOkB at h
  simp only [Bool.and_eq_true, Bool.not_eq_true'] at h
  refine ⟨?_, h.1.1.1.2, h.1.1.2, by simpa [hasChar] using h.1.2, h.2⟩
  intro he
  rw [he] at h
  simp at h

theorem renderDecl_data (n v : String) (c : Option String) :
    (renderLine (.decl n v c)).data =
      '$' :: (n.data ++ ':' :: ' ' :: (v.data ++ ';' :: commentTail c)) := by
  cases c <;> simp [renderLine, commentTail]

theorem matchDecl_render (n v : String) (c : Option String)
    (hn : nameOkB n = true) (hv : valueOkB v = true) (hc : commentOkB c = true) :
    matchDecl (renderLine (.decl n v c)).data =
      some (n.data, v.data ++ ';' :: commentTail c) := by
  obtain ⟨hn1, hn2⟩ := nameOk_parts n hn
  obtain ⟨hv1, hv2, hv3, hv4, hv5⟩ := valueOk_parts v hv
  rw [renderDecl_data]
  rw [matchDecl]
  simp only [beq_self_eq_true, if_true]
  rw [takeWhile_append_stop nameChar n.data ':' _ hn2 (by decide)]
  rw [dropWhile_append_stop nameChar n.data ':' _ hn2 (by decide)]
  rw [show (':' :: ' ' :: (v.data ++ ';' :: commentTail c)).dropWhile wsChar =
    ':' :: ' ' :: (v.data ++ ';' :: commentTail c) by
      simp [List.dropWhile_cons, wsChar]]
  have hnE : n.data.isEmpty = false := by
    cases hd : n.data
    · exact absurd hd hn1
    · rfl
  rw [hnE]
  simp only [Bool.false_eq_true, if_false, beq_self_eq_true, if_true]
  have hdrop : (' ' :: (v.data ++ ';' :: commentTail c)).dropWhile wsChar =
      v.data ++ ';' :: commentTail c := by
    rw [List.dropWhile_cons]
    simp only [show wsChar ' ' = true from rfl, if_true]
    exact dropWhile_head_stop wsChar _
      (by
        cases hd : v.data
        · exact absurd hd hv1
        · rw [hd] at hv2
          simpa using hv2)
      (by
        cases hd : v.data
        · exact absurd hd hv1
        · simp [hd])
  rw [hdrop]
  have hVne : (v.data ++ ';' :: commentTail c).isEmpty = false := by
    cases hd : v.data <;> rfl
  rw [hVne]
  have hVdot : (v.data ++ ';' :: commentTail c).all dotChar = true := by
    rw [List.all_append]
    cases c with
    | none => simp [hv5, commentTail, dotChar]
    | some cc =>
      obtain ⟨_, _, _, _, hcc5⟩ := commentOk_parts cc hc
      simp [hv5, commentTail, List.all_cons, dotChar, hcc5]
  rw [hVdot]
  simp

theorem strEta (s : String) : (⟨s.data⟩ : String) = s := rfl

theorem findComment_marker (c : String) (h1 : c.data ≠ [])
    (h2 : wsChar (c.data.headD ' ') = false) (h3 : c.data.all dotChar = true) :
    findComment ('/' :: '/' :: ' ' :: c.data) = some c.data := by
  rw [findComment]
  rw [if_pos (by simp)]
  have hdrop : List.dropWhile wsChar (' ' :: c.data) = c.data := by
    rw [List.dropWhile_cons]
    simp only [show wsChar ' ' = true from rfl, if_true]
    exact dropWhile_head_stop wsChar c.data h2 h1
  simp only [List.tail_cons, hdrop]
  have hne : c.data.isEmpty = false := by
    cases hd : c.data
    · exact absurd hd h1
    · rfl
  simp [hne, h3]

theorem buildRecord_render (i : Nat) (n v : String) (c : Option String)
    (hv : valueOkB v = true) (hc : commentOkB c = true) :
    buildRecord i n.data (v.data ++ ';' :: commentTail c) =
      { name := n, rawValue := v, comment := c, line := i + 1,
        layer := classifyToken ("$" ++ n) v } := by
  obtain ⟨hv1, hv2, hv3, hv4, hv5⟩ := valueOk_parts v hv
  have htrim : trimC v.data = v.data := trimC_eq_self v.data hv2 hv3 hv1
  cases c with
  | none =>
    have hBL : beforeLast ';' (v.data ++ ';' :: commentTail none) = some v.data :=
      beforeLast_last v.data [] (by simp)
    have hSS : hasSS (v.data ++ ';' :: commentTail none) = false := by
      rw [show commentTail none = [] from rfl]
      rw [hasSS_append_nonslash v.data ';' [] hv4 (by decide)]
      rfl
    have hFC : findComment (v.data ++ ';' :: commentTail none) = none :=
      findComment_no_ss _ hSS
    simp only [buildRecord, hBL, hFC, htrim, strEta]
  | some cc =>
    obtain ⟨hc1, hc2, hc3, hc4, hc5⟩ := commentOk_parts cc hc
    have hBL : beforeLast ';' (v.data ++ ';' :: commentTail (some cc)) = some v.data := by
      apply beforeLast_last
      simp only [commentTail, List.contains_cons]
      simpa using hc4
    have hFC : findComment (v.data ++ ';' :: commentTail (some cc)) = some cc.data := by
      rw [findComment_append_skip v.data (';' :: commentTail (some cc)) hv4 (by simp)]
      rw [show findComment (';' :: commentTail (some cc)) =
        findComment ('/' :: '/' :: ' ' :: cc.data) from rfl]
      exact findComment_marker cc hc1 hc2 hc5
    have htrimc : trimC cc.data = cc.data := trimC_eq_self cc.data hc2 hc3 hc1
    simp only [buildRecord, hBL, hFC, htrim, htrimc, strEta, hv4]
    simp

theorem accumValue_semidone (acc : List Char) (ls : List (List Char))
    (h : hasChar ';' acc = true) : accumValue acc ls = (acc, 0) := by
  cases ls <;> simp [accumValue, h]

theorem hasChar_semi_mid (xs ys : List Char) : hasChar ';' (xs ++ ';' :: ys) = true := by
  simp [hasChar]

theorem rawAfterAccum_noop (raw0 : List Char) (rest : List (List Char))
    (h : hasChar ';' raw0 = true) : rawAfterAccum raw0 rest = (raw0, 0) := by
  unfold rawAfterAccum
  cases h2 : (hasChar '(' raw0 && !hasChar ')' raw0) <;>
    simp [h, h2, accumValue_semidone raw0 rest h]

theorem parseLoopF_decl_step (fuel i : Nat) (n v : String) (c : Option String)
    (rest : List (List Char)) (hn : nameOkB n = true) (hv : valueOkB v = true)
    (hc : commentOkB c = true) :
    parseLoopF (fuel + 1) i ((renderLine (.decl n v c)).data :: rest) =
      ({ name := n
         rawValue := v
         comment := c
         line := i + 1
         layer := classifyToken ("$" ++ n) v } : ScssVariable) ::
        parseLoopF fuel (i + 1) rest := by
  rw [parseLoopF, matchDecl_render n v c hn hv hc]
  simp only [rawAfterAccum_noop _ rest (hasChar_semi_mid _ _), Nat.add_zero,
    List.drop_zero]
  rw [buildRecord_render i n v c hv hc]

theorem parseLoopF_plain_step (fuel i : Nat) (raw : String) (rest : List (List Char))
    (h : (matchDecl raw.data).isNone = true) :
    parseLoopF (fuel + 1) i (raw.data :: rest) = parseLoopF fuel (i + 1) rest := by
  rw [parseLoopF]
  rcases hm : matchDecl raw.data with _ | p
  · rfl
  · rw [hm] at h; simp at h

theorem renderLine_no_nl (s : LineSpec) (h : lineSpecOkB s = true) :
    ¬ (renderLine s).data.contains '\n' := by
  cases s with
  | plain raw =>
    simp only [lineSpecOkB, Bool.and_eq_true, Bool.not_eq_true'] at h
    intro hcon
    rw [show renderLine (.plain raw) = raw from rfl, h.2] at hcon
    exact Bool.false_ne_true hcon
  | decl n v c =>
    simp only [lineSpecOkB, Bool.and_eq_true] at h
    obtain ⟨hn1, hn2⟩ := nameOk_parts n h.1.1
    obtain ⟨hv1, hv2, hv3, hv4, hv5⟩ := valueOk_parts v h.1.2
    suffices h2 : '\n' ∉ (renderLine (.decl n v c)).data by
      simpa using h2
    rw [renderDecl_data]
    intro hmem
    rcases List.mem_cons.mp hmem with h3 | h3
    · exact absurd h3 (by decide)
    rcases List.mem_append.mp h3 with h4 | h4
    · have := List.all_eq_true.mp hn2 '\n' h4
      exact absurd this (by decide)
    rcases List.mem_cons.mp h4 with h5 | h5
    · exact absurd h5 (by decide)
    rcases List.mem_cons.mp h5 with h6 | h6
    · exact absurd h6 (by decide)
    rcases List.mem_append.mp h6 with h7 | h7
    · have := List.all_eq_true.mp hv5 '\n' h7
      exact absurd this (by decide)
    rcases List.mem_cons.mp h7 with h8 | h8
    · exact absurd h8 (by decide)
    cases c with
    | none => simp [commentTail] at h8
    | some cc =>
      obtain ⟨hc1, hc2, hc3, hc4, hc5⟩ := commentOk_parts cc h.2
      simp only [commentTail] at h8
      rcases List.mem_cons.mp h8 with h9 | h9
      · exact absurd h9 (by decide)
      rcases List.mem_cons.mp h9 with h10 | h10
      · exact absurd h10 (by decide)
      rcases List.mem_cons.mp h10 with h11 | h11
      · exact absurd h11 (by decide)
      rcases List.mem_cons.mp h11 with h12 | h12
      · exact absurd h12 (by decide)
      have := List.all_eq_true.mp hc5 '\n' h12
      exact absurd this (by decide)

theorem parseLoopF_render (specs : List LineSpec) :
    ∀ (i fuel : Nat), specs.length ≤ fuel → specs.all lineSpecOkB = true →
    parseLoopF fuel i (specs.map (fun s => (renderLine s).data)) =
      expectedRecords i specs := by
  induction specs with
  | nil => intro i fuel _ _; cases fuel <;> rfl
  | cons s rest ih =>
    intro i fuel hfuel h
    cases fuel with
    | zero => simp at hfuel
    | succ f =>
      simp only [List.all_cons, Bool.and_eq_true] at h
      have hrest := ih (i + 1) f (by simp only [List.length_cons] at hfuel; omega) h.2
      cases s with
      | decl n v c =>
        have hok := h.1
        simp only [lineSpecOkB, Bool.and_eq_true] at hok
        rw [List.map_cons, parseLoopF_decl_step f i n v c _ hok.1.1 hok.1.2 hok.2,
          hrest]
        rfl
      | plain raw =>
        have hok := h.1
        simp only [lineSpecOkB, Bool.and_eq_true] at hok
        rw [List.map_cons, show renderLine (LineSpec.plain raw) = raw from rfl,
          parseLoopF_plain_step f i raw _ hok.1, hrest]
        rfl

-- =============================================================================
-- Claim C2: the parser on well-formed input
-- =============================================================================

/-- C2: on an input whose lines each either are a declaration `$name: value;` with an
optional inline ` // comment` (well-formed per `lineSpecOkB`) or match no declaration at
all, `parseScssVariables` returns exactly one record per declaration, in file order,
carrying the name without the `$`, the raw value (the text before the last semicolon
with the trailing comment stripped and trimmed — equal to the declared value), and the
inline comment exactly when present. -/
theorem parseScssVariables_wellformed (specs : List LineSpec)
    (h : specs.all lineSpecOkB = true) :
    parseScssVariables (renderContent specs) = expectedRecords 0 specs := by
  cases hs : specs with
  | nil => rfl
  | cons s rest =>
    subst hs
    have hlines : splitLines (joinNL ((s :: rest).map
        (fun x => (renderLine x).data))) = (s :: rest).map (fun x => (renderLine x).data) := by
      apply splitLines_joinNL
      · simp
      · intro l hl
        obtain ⟨x, hx, rfl⟩ := List.mem_map.mp hl
        exact renderLine_no_nl x (by
          have := List.all_eq_true.mp h x hx
          simpa using this)
    have hdata : (renderContent (s :: rest)).data =
        joinNL ((s :: rest).map (fun x => (renderLine x).data)) := by
      simp [renderContent, joinLinesStr, List.map_map]
      rfl
    rw [parseScssVariables, hdata, hlines, parseLoop]
    exact parseLoopF_render (s :: rest) 0 _ (by simp) h

/-- Witness for `parseScssVariables_wellformed` on a concrete three-line file. -/
theorem parseScssVariables_wellformed_witness :
    ([LineSpec.decl "color-red-50" "#f00" (some "light red"),
      LineSpec.plain "// heading",
      LineSpec.decl "btn-height" "2rem" none].all lineSpecOkB = true) ∧
    parseScssVariables (renderContent
      [LineSpec.decl "color-red-50" "#f00" (some "light red"),
       LineSpec.plain "// heading",
       LineSpec.decl "btn-height" "2rem" none]) =
      expectedRecords 0
        [LineSpec.decl "color-red-50" "#f00" (some "light red"),
         LineSpec.plain "// heading",
         LineSpec.decl "btn-height" "2rem" none] := by
  refine ⟨by decide, parseScssVariables_wellformed _ (by decide)⟩

-- =============================================================================
-- Helper lemmas: grouping is a permutation
-- =============================================================================

theorem flatMap_filter_perm (lab : ScssVariable → String) :
    ∀ (L : List String) (ts : List ScssVariable), L.Nodup →
      (∀ t ∈ ts, lab t ∈ L) →
      (L.flatMap (fun g => ts.filter (fun t => lab t == g))).Perm ts := by
  intro L
  induction L with
  | nil =>
    intro ts _ hall
    have : ts = [] := List.eq_nil_iff_forall_not_mem.mpr
      (fun a ha => by simpa using hall a ha)
    subst this
    rfl
  | cons g L ih =>
    intro ts hN hall
    have hg : g ∉ L := (List.nodup_cons.mp hN).1
    have hNL : L.Nodup := (List.nodup_cons.mp hN).2
    rw [List.flatMap_cons]
    have hrw : ∀ g2 ∈ L, ts.filter (fun t => lab t == g2) =
        (ts.filter (fun t => !(lab t == g))).filter (fun t => lab t == g2) := by
      intro g2 hg2
      rw [List.filter_filter]
      apply (List.filter_congr ?_).symm
      intro t _
      cases hq : lab t == g2
      · simp
      · have : lab t = g2 := by simpa using hq
        have hne : (lab t == g) = false := by
          rw [this]
          exact beq_eq_false_iff_ne.mpr (fun he => hg (he ▸ hg2))
        simp [hne]
    have hmapeq : L.flatMap (fun g2 => ts.filter (fun t => lab t == g2)) =
        L.flatMap (fun g2 =>
          (ts.filter (fun t => !(lab t == g))).filter (fun t => lab t == g2)) := by
      unfold List.flatMap
      congr 1
      exact List.map_congr_left hrw
    rw [hmapeq]
    have hih := ih (ts.filter (fun t => !(lab t == g))) hNL (by
      intro t ht
      have := List.mem_filter.mp ht
      have hmem := hall t this.1
      rcases List.mem_cons.mp hmem with h2 | h2
      · rw [h2] at this
        simp at this
      · exact h2)
    exact List.Perm.trans (List.Perm.append_left _ hih) (List.filter_append_perm _ ts)

theorem groupByLabel_flat_perm (lab : ScssVariable → String) (ts : List ScssVariable) :
    ((groupByLabel lab ts).flatMap (fun g => g.2)).Perm ts := by
  unfold groupByLabel
  rw [List.flatMap_map]
  exact flatMap_filter_perm lab (dedupFirst (ts.map lab)) ts (nodup_dedupFirst _)
    (fun t ht => (mem_dedupFirst _ _).mpr (List.mem_map_of_mem lab ht))

-- =============================================================================
-- Helper lemmas: deduplication by name
-- =============================================================================

theorem filter_name_ne_nil (ts : List ScssVariable) (n : String)
    (h : n ∈ ts.map (fun t => t.name)) :
    ts.filter (fun t => t.name == n) ≠ [] := by
  obtain ⟨t, ht, rfl⟩ := List.mem_map.mp h
  intro he
  have hmem : t ∈ ts.filter (fun t2 => t2.name == t.name) :=
    List.mem_filter.mpr ⟨ht, by simp⟩
  rw [he] at hmem
  exact absurd hmem (List.not_mem_nil t)

theorem getLastD_mem (l : List ScssVariable) (h : l ≠ []) :
    l.getLastD default ∈ l := by
  rcases List.eq_nil_or_concat l with rfl | ⟨L, b, rfl⟩
  · exact absurd rfl h
  · rw [List.concat_eq_append, List.getLastD_concat]
    simp

theorem lastWith_name (ts : List ScssVariable) (n : String)
    (h : n ∈ ts.map (fun t => t.name)) :
    ((ts.filter (fun t => t.name == n)).getLastD default).name = n := by
  have hne := filter_name_ne_nil ts n h
  have hmem := getLastD_mem _ hne
  have h2 := List.mem_filter.mp hmem
  simpa using h2.2

theorem dedupByName_map_name (ts : List ScssVariable) :
    (dedupByName ts).map (fun t => t.name) = dedupFirst (ts.map (fun t => t.name)) := by
  unfold dedupByName
  rw [List.map_map]
  have : ∀ n ∈ dedupFirst (ts.map (fun t => t.name)),
      ((fun t => t.name) ∘ fun n2 => (ts.filter (fun t => t.name == n2)).getLastD default) n
        = id n := by
    intro n hn
    exact lastWith_name ts n ((mem_dedupFirst _ _).mp hn)
  rw [List.map_congr_left this, List.map_id]

theorem nodup_dedupByName_names (ts : List ScssVariable) :
    ((dedupByName ts).map (fun t => t.name)).Nodup := by
  rw [dedupByName_map_name]
  exact nodup_dedupFirst _

theorem dedupByName_subset (ts : List ScssVariable) (t : ScssVariable)
    (h : t ∈ dedupByName ts) : t ∈ ts := by
  unfold dedupByName at h
  obtain ⟨n, hn, rfl⟩ := List.mem_map.mp h
  have hnn : n ∈ ts.map (fun t2 => t2.name) := (mem_dedupFirst _ _).mp hn
  have hmem := getLastD_mem _ (filter_name_ne_nil ts n hnn)
  exact (List.mem_filter.mp hmem).1

theorem find?_name_map (L : List String) (fn : String → ScssVariable) (n : String)
    (hfn : ∀ m ∈ L, (fn m).name = m) (hmem : n ∈ L) :
    (L.map fn).find? (fun t => t.name == n) = some (fn n) := by
  induction L with
  | nil => simp at hmem
  | cons m L ih =>
    rw [List.map_cons, List.find?_cons]
    by_cases hmn : m = n
    · subst hmn
      have hb : ((fn m).name == m) = true := by simp [hfn m (by simp)]
      rw [hb]
    · have hne : ((fn m).name == n) = false := by
        rw [hfn m (by simp)]
        exact beq_eq_false_iff_ne.mpr hmn
      rw [hne]
      exact ih (fun m2 hm2 => hfn m2 (List.mem_cons_of_mem _ hm2))
        (by rcases List.mem_cons.mp hmem with rfl | h2
            · exact absurd rfl hmn
            · exact h2)

theorem getLast?_eq_getLastD (b : List ScssVariable) (h : b ≠ []) :
    b.getLast? = some (b.getLastD default) := by
  rcases List.eq_nil_or_concat b with rfl | ⟨L, x, rfl⟩
  · exact absurd rfl h
  · rw [List.concat_eq_append, List.getLastD_concat, List.getLast?_concat]

theorem getLastD_append_right (a b : List ScssVariable) (h : b ≠ []) :
    (a ++ b).getLastD default = b.getLastD default := by
  rcases List.eq_nil_or_concat b with rfl | ⟨L, x, rfl⟩
  · exact absurd rfl h
  · rw [List.concat_eq_append, ← List.append_assoc, List.getLastD_concat,
      List.getLastD_concat]

theorem dedupByName_find (ts : List ScssVariable) (n : String)
    (h : n ∈ ts.map (fun t => t.name)) :
    (dedupByName ts).find? (fun t => t.name == n) =
      some ((ts.filter (fun t => t.name == n)).getLastD default) := by
  unfold dedupByName
  exact find?_name_map _ _ n
    (fun m hm => lastWith_name ts m ((mem_dedupFirst _ _).mp hm))
    ((mem_dedupFirst _ _).mpr h)

-- =============================================================================
-- Helper lemmas: object insertion and key uniqueness
-- =============================================================================

theorem any_fst_beq_false (al : List (String × TokenEntry)) (k : String)
    (h : k ∉ al.map Prod.fst) : al.any (fun q => q.1 == k) = false := by
  rw [Bool.eq_false_iff]
  intro hc
  obtain ⟨p, hp, hpe⟩ := List.any_eq_true.mp hc
  exact h (List.mem_map.mpr ⟨p, hp, beq_iff_eq.mp hpe⟩)

theorem objInsert_fresh (k : String) (v : TokenEntry) (al : List (String × TokenEntry))
    (h : k ∉ al.map Prod.fst) : objInsert k v al = al ++ [(k, v)] := by
  unfold objInsert
  rw [any_fst_beq_false al k h]
  simp

theorem objInsert_keys_nodup (k : String) (v : TokenEntry)
    (al : List (String × TokenEntry)) (h : (al.map Prod.fst).Nodup) :
    ((objInsert k v al).map Prod.fst).Nodup := by
  unfold objInsert
  by_cases hk : al.any (fun q => q.1 == k) = true
  · rw [if_pos hk, List.map_map]
    have heq : ∀ p ∈ al,
        (Prod.fst ∘ fun p => if p.1 == k then (k, v) else p) p = Prod.fst p := by
      intro p _
      by_cases hp : (p.1 == k) = true
      · simp only [Function.comp_apply, if_pos hp]
        exact (beq_iff_eq.mp hp).symm
      · simp only [Function.comp_apply]
        rw [if_neg hp]
    rw [List.map_congr_left heq]
    exact h
  · rw [if_neg hk, List.map_append]
    refine List.Nodup.append h (by simp) ?_
    intro a ha hb
    simp only [List.map_cons, List.map_nil, List.mem_singleton] at hb
    subst hb
    exact absurd (List.any_eq_true.mpr (by
      obtain ⟨p, hp, hpe⟩ := List.mem_map.mp ha
      exact ⟨p, hp, by simp [hpe]⟩)) hk

theorem foldl_objInsert_keys_nodup {β : Type} (key : β → String) (f : β → TokenEntry)
    (ts : List β) : ∀ al, (al.map Prod.fst).Nodup →
    ((ts.foldl (fun al t => objInsert (key t) (f t) al) al).map Prod.fst).Nodup := by
  induction ts with
  | nil => intro al h; exact h
  | cons t ts ih =>
    intro al h
    rw [List.foldl_cons]
    exact ih _ (objInsert_keys_nodup (key t) (f t) al h)

theorem foldl_objInsert_fresh {β : Type} (key : β → String) (f : β → TokenEntry) :
    ∀ (ts : List β) (al : List (String × TokenEntry)),
    (∀ t ∈ ts, key t ∉ al.map Prod.fst) → (ts.map key).Nodup →
    ts.foldl (fun al t => objInsert (key t) (f t) al) al =
      al ++ ts.map (fun t => (key t, f t)) := by
  intro ts
  induction ts with
  | nil => intro al _ _; simp
  | cons t ts ih =>
    intro al hfresh hnd
    rw [List.foldl_cons, objInsert_fresh _ _ _ (hfresh t (by simp))]
    rw [List.map_cons] at hnd
    have hnd2 := List.nodup_cons.mp hnd
    rw [ih (al ++ [(key t, f t)]) ?_ hnd2.2]
    · simp
    · intro u hu hmem
      rw [List.map_append] at hmem
      rcases List.mem_append.mp hmem with h2 | h2
      · exact hfresh u (List.mem_cons_of_mem _ hu) h2
      · simp only [List.map_cons, List.map_nil, List.mem_singleton] at h2
        exact hnd2.1 (h2 ▸ List.mem_map_of_mem key hu)

theorem foldl_foldl_objInsert_keys_nodup {β : Type} (key : β → String)
    (f : β → TokenEntry) (arrs : List (List β)) :
    ∀ (al : List (String × TokenEntry)), (al.map Prod.fst).Nodup →
    ((arrs.foldl
      (fun al arr => arr.foldl (fun al t => objInsert (key t) (f t) al) al) al).map
        Prod.fst).Nodup := by
  induction arrs with
  | nil => intro al h; exact h
  | cons a arrs ih =>
    intro al h
    rw [List.foldl_cons]
    exact ih _ (foldl_objInsert_keys_nodup key f a al h)

theorem foldl_foldl_objInsert_fresh {β : Type} (key : β → String) (f : β → TokenEntry)
    (arrs : List (List β)) :
    ∀ (al : List (String × TokenEntry)), (∀ u ∈ arrs.flatten, key u ∉ al.map Prod.fst) →
    ((arrs.flatten).map key).Nodup →
    arrs.foldl (fun al arr => arr.foldl (fun al t => objInsert (key t) (f t) al) al) al =
      al ++ (arrs.flatten).map (fun t => (key t, f t)) := by
  induction arrs with
  | nil => intro al _ _; simp
  | cons a arrs ih =>
    intro al hfresh hnd
    rw [List.flatten_cons, List.map_append] at hnd
    have hnd3 := List.nodup_append.mp hnd
    rw [List.foldl_cons]
    rw [foldl_objInsert_fresh key f a al
      (fun u hu => hfresh u (by rw [List.flatten_cons]; exact List.mem_append.mpr (Or.inl hu)))
      hnd3.1]
    rw [ih (al ++ a.map fun t => (key t, f t)) ?fresh2 hnd3.2.1]
    · rw [List.flatten_cons, List.map_append, List.append_assoc]
    case fresh2 =>
      intro u hu hmem
      rw [List.map_append] at hmem
      rcases List.mem_append.mp hmem with h2 | h2
      · exact hfresh u (by rw [List.flatten_cons]; exact List.mem_append.mpr (Or.inr hu)) h2
      · rw [List.map_map] at h2
        have h3 : key u ∈ a.map key := by
          have : (Prod.fst ∘ fun t => (key t, f t)) = key := rfl
          rw [this] at h2
          exact h2
        exact hnd3.2.2 h3 (List.mem_map_of_mem key hu)

theorem nodupKeys_var (ts : List ScssVariable) (al : List (String × TokenEntry))
    (h : (al.map Prod.fst).Nodup) :
    ((ts.foldl (fun al t => objInsert t.name (entryOfVar t) al) al).map Prod.fst).Nodup :=
  foldl_objInsert_keys_nodup (fun t => t.name) entryOfVar ts al h

theorem nodupKeys_syn_nested (arrs : List (List SyntheticToken))
    (al : List (String × TokenEntry)) (h : (al.map Prod.fst).Nodup) :
    ((arrs.foldl
      (fun al arr => arr.foldl (fun al t => objInsert t.name (entryOfSyn t) al) al)
        al).map Prod.fst).Nodup :=
  foldl_foldl_objInsert_keys_nodup (fun t => t.name) entryOfSyn arrs al h

theorem fresh_var (ts : List ScssVariable) (al : List (String × TokenEntry))
    (h1 : ∀ u ∈ ts, u.name ∉ al.map Prod.fst) (h2 : (ts.map (fun t => t.name)).Nodup) :
    ts.foldl (fun al t => objInsert t.name (entryOfVar t) al) al =
      al ++ ts.map (fun t => (t.name, entryOfVar t)) :=
  foldl_objInsert_fresh (fun t => t.name) entryOfVar ts al h1 h2

theorem fresh_syn_nested (arrs : List (List SyntheticToken))
    (al : List (String × TokenEntry))
    (h1 : ∀ u ∈ arrs.flatten, u.name ∉ al.map Prod.fst)
    (h2 : ((arrs.flatten).map (fun t => t.name)).Nodup) :
    arrs.foldl
      (fun al arr => arr.foldl (fun al t => objInsert t.name (entryOfSyn t) al) al) al =
      al ++ (arrs.flatten).map (fun t => (t.name, entryOfSyn t)) :=
  foldl_foldl_objInsert_fresh (fun t => t.name) entryOfSyn arrs al h1 h2

-- =============================================================================
-- Helper lemmas: classification facts for disjointness
-- =============================================================================

theorem classify_foundation_matches (nm v : String)
    (h : classifyToken nm v = Layer.foundation) :
    matchesAnyPat FOUNDATION_PATTERNS nm = true := by
  unfold classifyToken at h
  cases he : matchesAnyPat EXCLUDE_PATTERNS nm <;>
    cases hv : valueExcluded v <;>
      cases hf : matchesAnyPat FOUNDATION_PATTERNS nm <;>
        cases hs : matchesAnyPat SEMANTIC_PATTERNS nm <;>
          simp [he, hv, hf, hs] at h <;> rfl

theorem syntheticNames_not_foundation :
    syntheticNames.all (fun m => !matchesAnyPat FOUNDATION_PATTERNS ("$" ++ m)) = true := by
  decide

theorem syntheticPropNames_eq :
    syntheticScales.flatMap (fun s => s.2.map (fun t => toCssCustomProp t.name)) =
      syntheticNames.map toCssCustomProp := by
  decide

theorem syntheticPropNames_nodup : (syntheticNames.map toCssCustomProp).Nodup := by
  decide

theorem synFlatten_names : (ALL_SYNTHETIC_TOKENS.flatten.map
    (fun t => t.name)) = syntheticNames := by
  decide

theorem toCssCustomProp_inj : Function.Injective toCssCustomProp := by
  intro a b h
  unfold toCssCustomProp PREFIX at h
  have h2 := congrArg String.data h
  simp only [String.data_append] at h2
  have h3 := List.append_cancel_left h2
  cases a
  cases b
  exact congrArg String.mk (by simpa using h3)

theorem deduped_foundation_match (tv gv : List ScssVariable) (layers : List Layer)
    (ht : ClassifiedVars tv) (hg : ClassifiedVars gv) (t : ScssVariable)
    (hmem : t ∈ dedupedFoundationOf tv gv layers) :
    matchesAnyPat FOUNDATION_PATTERNS ("$" ++ t.name) = true := by
  have h2 := dedupByName_subset _ _ hmem
  unfold foundationTokensOf at h2
  by_cases hl : Layer.foundation ∈ layers
  · rw [if_pos hl] at h2
    rcases List.mem_append.mp h2 with h3 | h3
    · have h4 := List.mem_filter.mp h3
      have h5 := hg t h4.1
      have h6 : t.layer = Layer.foundation := by simpa using h4.2
      rw [h6] at h5
      exact classify_foundation_matches _ _ h5.symm
    · have h4 := List.mem_filter.mp h3
      have h5 := ht t h4.1
      have h6 : t.layer = Layer.foundation := by simpa using h4.2
      rw [h6] at h5
      exact classify_foundation_matches _ _ h5.symm
  · rw [if_neg hl] at h2
    simp at h2

theorem syntheticNames_nodup : syntheticNames.Nodup := by decide

-- =============================================================================
-- Claim C3: token names are unique per layer; theme overrides global
-- =============================================================================

set_option maxRecDepth 16384 in
set_option maxHeartbeats 1000000 in
/-- C3: for parsed (classified) variable lists, the foundation tokens emitted into the
generated SCSS carry pairwise-distinct `--chi-` custom-property names (including the
synthetic shadow/spacing/border-width/duration/easing tokens), the foundation entries of
the JSON metadata contain each token name at most once, and a theme variable overrides a
global variable of the same name — both in the deduplicated foundation list driving the
SCSS emission and in the metadata entry for that name. -/
theorem foundation_names_unique (themeVars globalVars : List ScssVariable)
    (layers : List Layer) (ht : ClassifiedVars themeVars)
    (hg : ClassifiedVars globalVars) :
    (emittedFoundationPropNames
      (dedupedFoundationOf themeVars globalVars layers)).Nodup ∧
    (∀ (theme : ThemeT) (out : GeneratedOutput) (now : String),
      (((generateTokenMetadata themeVars globalVars theme out now).foundationEntries).map
        Prod.fst).Nodup) ∧
    (∀ n, n ∈ (themeVars.filter (fun v => v.layer == Layer.foundation)).map
        (fun v => v.name) →
      Layer.foundation ∈ layers →
      (dedupedFoundationOf themeVars globalVars layers).find? (fun t => t.name == n) =
        ((themeVars.filter (fun v => v.layer == Layer.foundation)).filter
          (fun v => v.name == n)).getLast?) ∧
    (∀ (n : String) (theme : ThemeT) (out : GeneratedOutput) (now : String),
      n ∈ (themeVars.filter (fun v => v.layer == Layer.foundation)).map
        (fun v => v.name) →
      lookupObj n
        ((generateTokenMetadata themeVars globalVars theme out now).foundationEntries) =
        (((themeVars.filter (fun v => v.layer == Layer.foundation)).filter
          (fun v => v.name == n)).getLast?).map entryOfVar) := by
  have tF := themeVars.filter (fun v => v.layer == Layer.foundation)
  refine ⟨?_, ?_, ?_, ?_⟩
  · -- (a) distinct emitted names
    set D := dedupedFoundationOf themeVars globalVars layers with hD
    unfold emittedFoundationPropNames
    by_cases hlen : D.length > 0
    · rw [if_pos hlen]
      have hA : (groupFoundationTokens D).flatMap
          (fun g => g.2.map (fun t => toCssCustomProp t.name)) =
          ((groupFoundationTokens D).flatMap (fun g => g.2)).map
            (fun t => toCssCustomProp t.name) := (List.map_flatMap _ _ _).symm
      have hperm : (((groupFoundationTokens D).flatMap (fun g => g.2)).map
          (fun t => toCssCustomProp t.name)).Perm
            (D.map (fun t => toCssCustomProp t.name)) :=
        (groupByLabel_flat_perm (fun t => foundationLabel t.name) D).map _
      have hDnodup : (D.map (fun t => toCssCustomProp t.name)).Nodup := by
        have h1 : (D.map (fun t => toCssCustomProp t.name)) =
            (D.map (fun t => t.name)).map toCssCustomProp := by
          rw [List.map_map]; rfl
        rw [h1]
        exact List.Nodup.map toCssCustomProp_inj (nodup_dedupByName_names _)
      have hAnodup : ((groupFoundationTokens D).flatMap
          (fun g => g.2.map (fun t => toCssCustomProp t.name))).Nodup := by
        rw [hA]
        exact hperm.nodup_iff.mpr hDnodup
      rw [syntheticPropNames_eq]
      refine List.Nodup.append hAnodup syntheticPropNames_nodup ?_
      intro a haA haB
      rw [hA] at haA
      have haD : a ∈ D.map (fun t => toCssCustomProp t.name) := hperm.mem_iff.mp haA
      obtain ⟨t, htD, rfl⟩ := List.mem_map.mp haD
      obtain ⟨m, hm, hme⟩ := List.mem_map.mp haB
      have hnm : m = t.name := toCssCustomProp_inj hme
      have hmatch := deduped_foundation_match themeVars globalVars layers ht hg t htD
      have hnot := List.all_eq_true.mp syntheticNames_not_foundation m hm
      rw [hnm, hmatch] at hnot
      simp at hnot
    · rw [if_neg hlen]
      exact List.nodup_nil
  · -- (b) metadata foundation keys unique
    intro theme out now
    have hfe : (generateTokenMetadata themeVars globalVars theme out now).foundationEntries
        = buildFoundationEntries (dedupByName
          (globalVars.filter (fun v => v.layer == Layer.foundation) ++
            themeVars.filter (fun v => v.layer == Layer.foundation))) := by
      simp only [generateTokenMetadata]
    rw [hfe, buildFoundationEntries, buildEntries]
    exact nodupKeys_syn_nested ALL_SYNTHETIC_TOKENS _ (nodupKeys_var _ [] (by simp))
  · -- (c) theme overrides global in the deduplicated list
    intro n hn hl
    unfold dedupedFoundationOf foundationTokensOf
    rw [if_pos hl]
    have hn2 : n ∈ (globalVars.filter (fun v => v.layer == Layer.foundation) ++
        themeVars.filter (fun v => v.layer == Layer.foundation)).map
          (fun t => t.name) := by
      rw [List.map_append]
      exact List.mem_append.mpr (Or.inr hn)
    rw [dedupByName_find _ n hn2, List.filter_append]
    have htne : (themeVars.filter (fun v => v.layer == Layer.foundation)).filter
        (fun v => v.name == n) ≠ [] := filter_name_ne_nil _ n hn
    rw [getLastD_append_right _ _ htne, getLast?_eq_getLastD _ htne]
  · -- (d) theme overrides global in the metadata entry
    intro n theme out now hn
    set gF := globalVars.filter (fun v => v.layer == Layer.foundation) with hgF
    set tF2 := themeVars.filter (fun v => v.layer == Layer.foundation) with htF
    set D := dedupByName (gF ++ tF2) with hDdef
    have hDmatch : ∀ t ∈ D, matchesAnyPat FOUNDATION_PATTERNS ("$" ++ t.name) = true := by
      intro t htm
      exact deduped_foundation_match themeVars globalVars [Layer.foundation] ht hg t htm
    have hDnames : (D.map (fun t => t.name)).Nodup := nodup_dedupByName_names _
    have hfe0 : D.foldl (fun al t => objInsert t.name (entryOfVar t) al) [] =
        D.map (fun t => (t.name, entryOfVar t)) := by
      have h2 := fresh_var D [] (by intro u _ hu2; simp at hu2) hDnames
      simpa using h2
    have hfresh : ∀ u ∈ ALL_SYNTHETIC_TOKENS.flatten,
        u.name ∉ (D.map (fun t => (t.name, entryOfVar t))).map Prod.fst := by
      intro u hu hcon
      rw [List.map_map] at hcon
      have hcon2 : u.name ∈ D.map (fun t => t.name) := by
        have : (Prod.fst ∘ fun t => (t.name, entryOfVar t)) = fun t => t.name := rfl
        rw [this] at hcon
        exact hcon
      obtain ⟨t, htD, hte⟩ := List.mem_map.mp hcon2
      have hmatch := hDmatch t htD
      have humem : u.name ∈ syntheticNames := by
        rw [← synFlatten_names]
        exact List.mem_map_of_mem _ hu
      have hnot := List.all_eq_true.mp syntheticNames_not_foundation u.name humem
      rw [← hte, hmatch] at hnot
      simp at hnot
    have hsynnod : ((ALL_SYNTHETIC_TOKENS.flatten).map (fun t => t.name)).Nodup := by
      rw [synFlatten_names]
      exact syntheticNames_nodup
    have hfe1 := fresh_syn_nested ALL_SYNTHETIC_TOKENS
      (D.map (fun t => (t.name, entryOfVar t))) hfresh hsynnod
    have hfe : (generateTokenMetadata themeVars globalVars theme out now).foundationEntries
        = buildFoundationEntries D := by
      simp only [generateTokenMetadata, hDdef, hgF, htF]
    rw [hfe, buildFoundationEntries, buildEntries, hfe0, hfe1]
    unfold lookupObj
    rw [List.find?_append]
    have hn2 : n ∈ (gF ++ tF2).map (fun t => t.name) := by
      rw [List.map_append]
      exact List.mem_append.mpr (Or.inr hn)
    have hleft : List.find? (fun p => p.1 == n)
        (D.map (fun t => (t.name, entryOfVar t))) =
        some ((((gF ++ tF2).filter (fun t => t.name == n)).getLastD default).name,
          entryOfVar (((gF ++ tF2).filter (fun t => t.name == n)).getLastD default)) := by
      rw [List.find?_map]
      have hcomp : ((fun p : String × TokenEntry => p.1 == n) ∘
          fun t => (t.name, entryOfVar t)) = fun t => t.name == n := rfl
      rw [hcomp, hDdef, dedupByName_find _ n hn2]
      rfl
    rw [hleft]
    have htne : tF2.filter (fun v => v.name == n) ≠ [] := filter_name_ne_nil _ n hn
    have hlast : ((gF ++ tF2).filter (fun t => t.name == n)).getLastD default =
        (tF2.filter (fun v => v.name == n)).getLastD default := by
      rw [List.filter_append]
      exact getLastD_append_right _ _ htne
    rw [hlast, getLast?_eq_getLastD _ htne]
    rfl

/-- Witness for `foundation_names_unique`: on concrete parsed lists the theme's
`color-red-50` overrides the global one. -/
theorem foundation_names_unique_witness :
    (dedupedFoundationOf sampleThemeVars sampleGlobalVars
      [Layer.foundation, Layer.semantic]).find? (fun t => t.name == "color-red-50") =
      ((sampleThemeVars.filter (fun v => v.layer == Layer.foundation)).filter
        (fun v => v.name == "color-red-50")).getLast? := by
  exact (foundation_names_unique sampleThemeVars sampleGlobalVars
    [Layer.foundation, Layer.semantic] (by unfold ClassifiedVars; decide)
    (by unfold ClassifiedVars; decide)).2.2.1
    "color-red-50" (by decide) (by decide)

-- =============================================================================
-- C8: reported property counts versus emitted custom-property declarations
-- =============================================================================


theorem isChiLine_tokenLine (t : ScssVariable) : isChiLine (tokenLine t).data = true := by
  rw [tokenLine, toCssCustomProp]
  simp only [String.data_append]
  rfl

theorem isChiLine_synLine (t : SyntheticToken) : isChiLine (synLine t).data = true := by
  rw [synLine, toCssCustomProp]
  simp only [String.data_append]
  rfl

theorem isChiLine_groupHeader (g : String) : isChiLine (groupHeader g).data = false := by
  rw [groupHeader]
  simp only [String.data_append]
  rfl

theorem digitChar_ne_newline : ∀ n : Nat, Nat.digitChar n ≠ '\n'
  | 0 => by decide
  | 1 => by decide
  | 2 => by decide
  | 3 => by decide
  | 4 => by decide
  | 5 => by decide
  | 6 => by decide
  | 7 => by decide
  | 8 => by decide
  | 9 => by decide
  | 10 => by decide
  | 11 => by decide
  | 12 => by decide
  | 13 => by decide
  | 14 => by decide
  | 15 => by decide
  | (n + 16) => by
    unfold Nat.digitChar
    iterate 16 rw [if_neg (by omega)]
    decide

theorem toDigitsCore_ne_newline (b fuel n : Nat) (ds : List Char) (h : ∀ c ∈ ds, c ≠ '\n') :
    ∀ c ∈ Nat.toDigitsCore b fuel n ds, c ≠ '\n' := by
  induction fuel generalizing n ds with
  | zero => simpa [Nat.toDigitsCore] using h
  | succ fuel ih =>
    intro c hc
    rw [Nat.toDigitsCore] at hc
    split at hc
    · rcases List.mem_cons.mp hc with h1 | h1
      · rw [h1]; exact digitChar_ne_newline _
      · exact h c h1
    · refine ih _ _ ?_ c hc
      intro d hd
      rcases List.mem_cons.mp hd with h1 | h1
      · rw [h1]; exact digitChar_ne_newline _
      · exact h d h1

theorem natToString_no_newline (n : Nat) : ¬ (toString n).data.contains '\n' := by
  have h : ∀ c ∈ (Nat.toDigits 10 n), c ≠ '\n' :=
    toDigitsCore_ne_newline 10 (n + 1) n [] (by simp)
  have h2 : (toString n).data = Nat.toDigits 10 n := rfl
  rw [h2]
  intro hc
  exact h '\n' (by simpa using hc) rfl

theorem countP_chi_block {α : Type} (lineOf : α → String)
    (h : ∀ x : α, isChiLine (lineOf x).data = true)
    (groups : List (String × List α)) :
    ((groups.flatMap (fun g => groupHeader g.1 :: (g.2.map lineOf ++ [""]))).map
      String.data).countP isChiLine = (groups.map (fun g => g.2.length)).sum := by
  induction groups with
  | nil => rfl
  | cons g gs ih =>
    rw [List.flatMap_cons, List.map_append, List.countP_append, ih]
    have hb : ((groupHeader g.1 :: (g.2.map lineOf ++ [""])).map String.data).countP
        isChiLine = g.2.length := by
      rw [List.map_cons, List.countP_cons, isChiLine_groupHeader, List.map_append,
        List.countP_append, List.map_map]
      have h1 : (g.2.map (String.data ∘ lineOf)).countP isChiLine
          = (g.2.map (String.data ∘ lineOf)).length := by
        rw [List.countP_eq_length]
        intro l hl
        obtain ⟨x, _, rfl⟩ := List.mem_map.mp hl
        exact h x
      rw [h1, List.length_map]
      rfl
    rw [hb, List.map_cons, List.sum_cons]

theorem groupByLabel_len_sum (lab : ScssVariable → String) (ts : List ScssVariable) :
    ((groupByLabel lab ts).map (fun g => g.2.length)).sum = ts.length := by
  have hp := groupByLabel_flat_perm lab ts
  have hlen := hp.length_eq
  rw [List.length_flatMap] at hlen
  rw [← hlen]
  rfl

theorem countChi_headerLines (theme : ThemeT) (now : String) (a b c : Nat) :
    ((headerLines theme now a b c).map String.data).countP isChiLine = 0 := by
  refine List.countP_eq_zero.mpr ?_
  intro l hl
  rw [headerLines] at hl
  simp only [List.map_cons, List.map_nil, List.mem_cons, List.not_mem_nil, or_false] at hl
  rcases hl with rfl|rfl|rfl|rfl|rfl|rfl|rfl|rfl|rfl|rfl|rfl|rfl|rfl|rfl|rfl|rfl|rfl
  all_goals rw [Bool.not_eq_true]
  all_goals try simp only [String.data_append]
  all_goals rfl

theorem countChi_legacyLines : (legacyLines.map String.data).countP isChiLine = 0 := by
  decide

theorem syntheticScales_len_sum : (syntheticScales.map (fun s => s.2.length)).sum = syntheticTotal := by
  decide

theorem noNewline_append (s t : String) (h1 : ¬ s.data.contains '\n')
    (h2 : ¬ t.data.contains '\n') : ¬ (s ++ t).data.contains '\n' := by
  rw [String.data_append]
  intro hc
  rcases List.mem_append.mp (by simpa using hc) with h | h
  · exact h1 (by simpa using h)
  · exact h2 (by simpa using h)

theorem noNewline_ite {c : Prop} [inst : Decidable c] (a b : String)
    (ha : ¬ a.data.contains '\n') (hb : ¬ b.data.contains '\n') :
    ¬ (if c then a else b).data.contains '\n' := by
  by_cases h : c
  · rwa [if_pos h]
  · rwa [if_neg h]

theorem noNewline_foundationLabel (n : String) : ¬ (foundationLabel n).data.contains '\n' := by
  unfold foundationLabel
  repeat' apply noNewline_ite
  all_goals decide

theorem noNewline_semanticLabel (n : String) : ¬ (semanticLabel n).data.contains '\n' := by
  unfold semanticLabel
  repeat' apply noNewline_ite
  all_goals decide

theorem noNewline_capitalize_theme (theme : ThemeT) :
    ¬ (capitalize (themeStr theme)).data.contains '\n' := by
  cases theme <;> decide

theorem noNewline_syntheticLines :
    ∀ l ∈ syntheticScales.flatMap (fun s => groupHeader s.1 :: (s.2.map synLine ++ [""])),
      ¬ l.data.contains '\n' := by
  decide

theorem noNewline_repChar (c : Char) (hc : c ≠ '\n') (k : Nat) :
    ¬ ((⟨repChar c k⟩ : String)).data.contains '\n' := by
  induction k with
  | zero => simp [repChar]
  | succ k ih =>
    intro h
    have h2 : '\n' ∈ repChar c (k + 1) := by simpa using h
    rw [repChar] at h2
    rcases List.mem_cons.mp h2 with h3 | h3
    · exact hc h3.symm
    · exact ih (by simpa using h3)

theorem noNewline_commentSuffix (c : Option String)
    (h : ∀ s, c = some s → ¬ s.data.contains '\n') :
    ¬ (tokenCommentSuffix c).data.contains '\n' := by
  match c with
  | none => decide
  | some s =>
    rw [tokenCommentSuffix]
    by_cases he : (s == "") = true
    · rw [if_pos he]
      decide
    · rw [if_neg he]
      exact noNewline_append _ _ (by decide) (h s rfl)

theorem noNewline_tokenLine (t : ScssVariable) (h : varNoNL t = true) :
    ¬ (tokenLine t).data.contains '\n' := by
  rw [varNoNL, Bool.and_eq_true] at h
  have hname : ¬ t.name.data.contains '\n' := by
    have h1 := h.1
    simp only [Bool.not_eq_true'] at h1
    intro hh
    rw [h1] at hh
    exact Bool.false_ne_true hh
  have hcomm : ∀ s, t.comment = some s → ¬ s.data.contains '\n' := by
    intro s hs
    have h2 := h.2
    rw [hs] at h2
    simp only [Bool.not_eq_true'] at h2
    intro hh
    rw [h2] at hh
    exact Bool.false_ne_true hh
  rw [tokenLine, toCssCustomProp, toScssInterpolation]
  refine noNewline_append _ _ ?_ (noNewline_commentSuffix _ hcomm)
  refine noNewline_append _ _ ?_ (by decide)
  refine noNewline_append _ _ ?_ ?_
  · refine noNewline_append _ _ ?_ (by decide)
    exact noNewline_append _ _ (by decide) hname
  · refine noNewline_append _ _ ?_ (by decide)
    exact noNewline_append _ _ (by decide) hname

theorem noNewline_groupHeader (g : String) (hg : ¬ g.data.contains '\n') :
    ¬ (groupHeader g).data.contains '\n' := by
  rw [groupHeader]
  refine noNewline_append _ _ ?_ (by decide)
  refine noNewline_append _ _ ?_ (noNewline_repChar _ (by decide) _)
  refine noNewline_append _ _ ?_ (by decide)
  exact noNewline_append _ _ (by decide) hg

theorem noNewline_groupLines (lab : ScssVariable → String) (ts : List ScssVariable)
    (hlab : ∀ v : ScssVariable, ¬ (lab v).data.contains '\n')
    (hts : ∀ v ∈ ts, varNoNL v = true) :
    ∀ l ∈ (groupByLabel lab ts).flatMap
      (fun g => groupHeader g.1 :: (g.2.map tokenLine ++ [""])),
      ¬ l.data.contains '\n' := by
  intro l hl
  obtain ⟨g, hg, hlg⟩ := List.mem_flatMap.mp hl
  rw [groupByLabel] at hg
  obtain ⟨lbl, hlbl, rfl⟩ := List.mem_map.mp hg
  rcases List.mem_cons.mp hlg with rfl | hlg2
  · have hlbl2 : lbl ∈ ts.map lab := (mem_dedupFirst _ _).mp hlbl
    obtain ⟨v, _, rfl⟩ := List.mem_map.mp hlbl2
    exact noNewline_groupHeader _ (hlab v)
  · rcases List.mem_append.mp hlg2 with h3 | h3
    · obtain ⟨t, ht, rfl⟩ := List.mem_map.mp h3
      exact noNewline_tokenLine t (hts t (List.mem_filter.mp ht).1)
    · have : l = "" := by simpa using h3
      subst this
      decide

theorem noNewline_headerLines (theme : ThemeT) (now : String) (a b c : Nat)
    (hnow : ¬ now.data.contains '\n') :
    ∀ l ∈ headerLines theme now a b c, ¬ l.data.contains '\n' := by
  intro l hl
  rw [headerLines] at hl
  simp only [List.mem_cons, List.not_mem_nil, or_false] at hl
  rcases hl with rfl|rfl|rfl|rfl|rfl|rfl|rfl|rfl|rfl|rfl|rfl|rfl|rfl|rfl|rfl|rfl|rfl
  · decide
  · refine noNewline_append _ _ ?_ (by decide)
    exact noNewline_append _ _ (by decide) (noNewline_capitalize_theme theme)
  · decide
  · exact noNewline_append _ _ (by decide) hnow
  · exact noNewline_append _ _ (by decide) (natToString_no_newline a)
  · refine noNewline_append _ _ ?_ (natToString_no_newline c)
    refine noNewline_append _ _ ?_ (by decide)
    exact noNewline_append _ _ (by decide) (natToString_no_newline b)
  all_goals decide

theorem noNewline_foundationLines (deduped : List ScssVariable)
    (h : ∀ v ∈ deduped, varNoNL v = true) :
    ∀ l ∈ foundationBlockLines deduped, ¬ l.data.contains '\n' := by
  intro l hl
  rw [foundationBlockLines] at hl
  split at hl
  · rcases List.mem_append.mp hl with h1 | h1
    · rcases List.mem_append.mp h1 with h2 | h2
      · rcases List.mem_append.mp h2 with h3 | h3
        · have : l = eqBanner ∨
              l = "// Foundation Layer - :root scope (universal, not theme-switchable)" ∨
              l = eqBanner ∨ l = ":root \x7b" := by simpa using h3
          rcases this with rfl|rfl|rfl|rfl <;> decide
        · exact noNewline_groupLines _ deduped (fun v => noNewline_foundationLabel v.name) h l h3
      · exact noNewline_syntheticLines l h2
    · have : l = "\x7d" ∨ l = "" := by simpa using h1
      rcases this with rfl|rfl <;> decide
  · simp at hl

theorem noNewline_semanticLines (n : Nat) (sem : List ScssVariable)
    (h : ∀ v ∈ sem, varNoNL v = true) :
    ∀ l ∈ semanticBlockLines n sem, ¬ l.data.contains '\n' := by
  intro l hl
  rw [semanticBlockLines] at hl
  split at hl
  · rcases List.mem_append.mp hl with h1 | h1
    · rcases List.mem_append.mp h1 with h2 | h2
      · rcases List.mem_append.mp h2 with h3 | h3
        · split at h3
          · have : l = ":root \x7b" := by simpa using h3
            subst this
            decide
          · have : l = eqBanner ∨
                l = "// Semantic Layer - :root scope (globally accessible, theme-specific values)" ∨
                l = eqBanner ∨ l = ":root \x7b" := by simpa using h3
            rcases this with rfl|rfl|rfl|rfl <;> decide
        · exact noNewline_groupLines _ sem (fun v => noNewline_semanticLabel v.name) h l h3
      · have : l = "\x7d" ∨ l = "" := by simpa using h2
        rcases this with rfl|rfl <;> decide
    · have hleg : ∀ x ∈ legacyLines, ¬ x.data.contains '\n' := by decide
      exact hleg l h1
  · simp at hl

theorem countChi_foundationBlock (deduped : List ScssVariable) :
    ((foundationBlockLines deduped).map String.data).countP isChiLine =
      if 0 < deduped.length then deduped.length + syntheticTotal else 0 := by
  rw [foundationBlockLines]
  by_cases hd : deduped.length > 0
  · rw [if_pos hd, if_pos hd]
    simp only [List.map_append, List.countP_append]
    rw [groupFoundationTokens, countP_chi_block tokenLine isChiLine_tokenLine,
      countP_chi_block synLine isChiLine_synLine, groupByLabel_len_sum, syntheticScales_len_sum]
    have h1 : (([eqBanner,
        "// Foundation Layer - :root scope (universal, not theme-switchable)",
        eqBanner, ":root \x7b"].map String.data).countP isChiLine) = 0 := by decide
    have h2 : ((["\x7d", ""].map String.data).countP isChiLine) = 0 := by decide
    rw [h1, h2]
    omega
  · rw [if_neg hd, if_neg hd]
    rfl

theorem countChi_semanticBlock (n : Nat) (sem : List ScssVariable) :
    ((semanticBlockLines n sem).map String.data).countP isChiLine = sem.length := by
  rw [semanticBlockLines]
  by_cases hs : sem.length > 0
  · rw [if_pos hs]
    simp only [List.map_append, List.countP_append]
    rw [groupSemanticTokens, countP_chi_block tokenLine isChiLine_tokenLine, groupByLabel_len_sum,
      countChi_legacyLines]
    have h2 : ((["\x7d", ""].map String.data).countP isChiLine) = 0 := by decide
    rw [h2]
    have h3 : (((if n == 0 then [":root \x7b"]
        else [eqBanner,
          "// Semantic Layer - :root scope (globally accessible, theme-specific values)",
          eqBanner, ":root \x7b"]).map String.data).countP isChiLine) = 0 := by
      by_cases hn : (n == 0) = true
      · rw [if_pos hn]; decide
      · rw [if_neg hn]; decide
    rw [h3]
    omega
  · rw [if_neg hs]
    have : sem = [] := List.length_eq_zero.mp (by omega)
    subst this
    rfl
/-- C8 (amended): `foundationCount + semanticCount = totalCount` always holds, and for
every input whose variable names and comments contain no newline (and a newline-free
timestamp), the number of `--chi-` custom-property declarations in the generated SCSS
text equals `totalCount` minus the 59 synthetic tokens exactly when the deduplicated
foundation list is empty: the synthetic tokens are always counted but only emitted when
the foundation `:root` block is emitted. -/
theorem generateCssVariablesScss_counts (themeVars globalVars : List ScssVariable)
    (theme : ThemeT) (layers : List Layer) (now : String)
    (hnl : ∀ v ∈ themeVars ++ globalVars, varNoNL v = true)
    (hnow : ¬ now.data.contains '\n') :
    (generateCssVariablesScss themeVars globalVars theme layers now).foundationCount +
      (generateCssVariablesScss themeVars globalVars theme layers now).semanticCount =
      (generateCssVariablesScss themeVars globalVars theme layers now).totalCount ∧
    countChi (generateCssVariablesScss themeVars globalVars theme layers now).scss +
      (if (dedupedFoundationOf themeVars globalVars layers).length = 0 then syntheticTotal
        else 0) =
      (generateCssVariablesScss themeVars globalVars theme layers now).totalCount := by
  constructor
  · rfl
  · have hscss : (generateCssVariablesScss themeVars globalVars theme layers now).scss =
        joinLinesStr (generatedLines (dedupedFoundationOf themeVars globalVars layers)
          (semanticTokensOf themeVars layers) theme now
          ((dedupedFoundationOf themeVars globalVars layers).length + syntheticTotal +
            (semanticTokensOf themeVars layers).length)
          ((dedupedFoundationOf themeVars globalVars layers).length + syntheticTotal)
          (semanticTokensOf themeVars layers).length) := rfl
    have htot : (generateCssVariablesScss themeVars globalVars theme layers now).totalCount
        = (dedupedFoundationOf themeVars globalVars layers).length + syntheticTotal +
          (semanticTokensOf themeVars layers).length := rfl
    rw [hscss, htot]
    have hDn : ∀ v ∈ dedupedFoundationOf themeVars globalVars layers, varNoNL v = true := by
      intro v hv
      rw [dedupedFoundationOf] at hv
      have h2 := dedupByName_subset _ _ hv
      rw [foundationTokensOf] at h2
      split at h2
      · rcases List.mem_append.mp h2 with h3 | h3
        · exact hnl v (List.mem_append.mpr (Or.inr (List.mem_filter.mp h3).1))
        · exact hnl v (List.mem_append.mpr (Or.inl (List.mem_filter.mp h3).1))
      · simp at h2
    have hSn : ∀ v ∈ semanticTokensOf themeVars layers, varNoNL v = true := by
      intro v hv
      rw [semanticTokensOf] at hv
      split at hv
      · exact hnl v (List.mem_append.mpr (Or.inl (List.mem_filter.mp hv).1))
      · simp at hv
    have hlines : ∀ l ∈ generatedLines (dedupedFoundationOf themeVars globalVars layers)
        (semanticTokensOf themeVars layers) theme now
        ((dedupedFoundationOf themeVars globalVars layers).length + syntheticTotal +
          (semanticTokensOf themeVars layers).length)
        ((dedupedFoundationOf themeVars globalVars layers).length + syntheticTotal)
        (semanticTokensOf themeVars layers).length, ¬ l.data.contains '\n' := by
      intro l hl
      rw [generatedLines] at hl
      rcases List.mem_append.mp hl with h1 | h1
      · rcases List.mem_append.mp h1 with h2 | h2
        · rcases List.mem_append.mp h2 with h3 | h3
          · exact noNewline_headerLines theme now _ _ _ hnow l h3
          · exact noNewline_foundationLines _ hDn l h3
        · exact noNewline_semanticLines _ _ hSn l h2
      · have : l = "" := by simpa using h1
        subst this
        decide
    have hne : generatedLines (dedupedFoundationOf themeVars globalVars layers)
        (semanticTokensOf themeVars layers) theme now
        ((dedupedFoundationOf themeVars globalVars layers).length + syntheticTotal +
          (semanticTokensOf themeVars layers).length)
        ((dedupedFoundationOf themeVars globalVars layers).length + syntheticTotal)
        (semanticTokensOf themeVars layers).length ≠ [] := by
      rw [generatedLines, headerLines]
      simp
    rw [countChi_joinLinesStr _ hne hlines]
    rw [generatedLines]
    simp only [List.map_append, List.countP_append]
    rw [countChi_headerLines, countChi_foundationBlock, countChi_semanticBlock]
    have hlast : (([""].map String.data).countP isChiLine) = 0 := by decide
    rw [hlast]
    split_ifs <;> omega

/-- C8 counterexample: with no variables at all and only the semantic layer requested,
`generateCssVariablesScss` reports `totalCount = 59` (the synthetic tokens) while the
generated SCSS text contains zero `--chi-` custom-property declarations, so the
'Total Properties' header does not match what is emitted. -/
theorem synthetic_overcount_counterexample :
    (generateCssVariablesScss [] [] ThemeT.lumen [Layer.semantic] "T").totalCount = 59 ∧
    countChi (generateCssVariablesScss [] [] ThemeT.lumen [Layer.semantic] "T").scss = 0 := by
  constructor
  · rfl
  · decide

/-- Witness for `generateCssVariablesScss_counts` at a concrete input. -/
theorem generateCssVariablesScss_counts_witness :
    ((∀ v ∈ [sampleSemanticVar] ++ sampleGlobalVars, varNoNL v = true) ∧
      ¬ ("2024-01-01T00:00:00.000Z".data.contains '\n')) ∧
    ((generateCssVariablesScss [sampleSemanticVar] sampleGlobalVars ThemeT.lumen
        [Layer.foundation, Layer.semantic] "2024-01-01T00:00:00.000Z").foundationCount +
      (generateCssVariablesScss [sampleSemanticVar] sampleGlobalVars ThemeT.lumen
        [Layer.foundation, Layer.semantic] "2024-01-01T00:00:00.000Z").semanticCount =
      (generateCssVariablesScss [sampleSemanticVar] sampleGlobalVars ThemeT.lumen
        [Layer.foundation, Layer.semantic] "2024-01-01T00:00:00.000Z").totalCount ∧
    countChi (generateCssVariablesScss [sampleSemanticVar] sampleGlobalVars ThemeT.lumen
        [Layer.foundation, Layer.semantic] "2024-01-01T00:00:00.000Z").scss +
      (if (dedupedFoundationOf [sampleSemanticVar] sampleGlobalVars
          [Layer.foundation, Layer.semantic]).length = 0 then syntheticTotal
        else 0) =
      (generateCssVariablesScss [sampleSemanticVar] sampleGlobalVars ThemeT.lumen
        [Layer.foundation, Layer.semantic] "2024-01-01T00:00:00.000Z").totalCount) :=
  ⟨⟨by decide, by decide⟩,
    generateCssVariablesScss_counts [sampleSemanticVar] sampleGlobalVars ThemeT.lumen
      [Layer.foundation, Layer.semantic] "2024-01-01T00:00:00.000Z" (by decide) (by decide)⟩
